import Mathlib

/-
Shallow embedding of the CK3ModManager core ("definition tree" arena, node
classifier, merge/conflict engine, script/localization extraction fold),
translated from src/rust/src/definition_tree.rs and
src/rust/src/paradox_parser.rs.

Modelling conventions:
* `NodeId` (Rust `u32` index) is a `Nat`; arena access out of range panics in
  Rust, so theorems carry explicit in-range hypotheses where they matter.
* Rust `PathBuf` values are lists of path components; `PathBuf::join` with a
  single (separator-free) component appends it.
* `Arc<RwLock<IndexSet<NodeId>>>` provenance sets are modelled by an index
  (`srcRef`) into a store of sets (`srcStore`): two nodes share the identical
  set object exactly when their `srcRef`s are equal (Rust `Arc::ptr_eq`).
* `assert!` failures (which abort the Rust process) are modelled by returning
  `none` from the corresponding operation.
-/

namespace CK3Spec

/-- Node identifiers: indices into the arena's node vector (Rust `type NodeId = u32`). -/
abbrev NodeId := Nat

/-- Filesystem-style paths as lists of components (Rust `PathBuf`). -/
abbrev FsPath := List String

/-- Node classification from `definition_tree.rs` (`enum NodeType`); the Rust
`derive(PartialOrd)` order is Value < Identifier < File < Directory < Mod < Virtual. -/
inductive NodeType where
  | Value
  | Identifier
  | File
  | Directory
  | Mod
  | Virtual
deriving DecidableEq, Repr

/-- Rank of a `NodeType` in the derived order. -/
def NodeType.toNat : NodeType → Nat
  | .Value => 0
  | .Identifier => 1
  | .File => 2
  | .Directory => 3
  | .Mod => 4
  | .Virtual => 5

/-- Characters after the last dot of a component. -/
def afterLastDot (l : List Char) : List Char :=
  (l.reverse.takeWhile (fun ch => ch ≠ '.')).reverse

/-- Extension of one path component, following Rust `Path::extension`: `none`
when there is no dot or only a leading dot; otherwise the part after the last dot. -/
def componentExtension (c : String) : Option String :=
  if c = "." ∨ c = ".." then none
  else
    match c.data with
    | '.' :: rest =>
      if rest.contains '.' then some (String.mk (afterLastDot rest)) else none
    | chars =>
      if chars.contains '.' then some (String.mk (afterLastDot chars)) else none

/-- Split a character list at '/' separators. -/
def splitOnSlash : List Char → List (List Char)
  | [] => [[]]
  | '/' :: rest => [] :: splitOnSlash rest
  | c :: rest =>
    match splitOnSlash rest with
    | [] => [[c]]
    | hd :: tl => (c :: hd) :: tl

/-- Final component of a string interpreted as a path (for `PathBuf::from(name)`). -/
def lastComponent (s : String) : Option String :=
  (((splitOnSlash s.data).map String.mk).filter (fun c => c ≠ "")).getLast?

/-- Rust `str::starts_with(char)`. -/
def strStartsWithChar (s : String) (c : Char) : Bool :=
  match s.data with
  | [] => false
  | c0 :: _ => c0 = c

/-- Rust `str::ends_with(char)`. -/
def strEndsWithChar (s : String) (c : Char) : Bool :=
  match s.data.getLast? with
  | some c0 => c0 = c
  | none => false

/-- Extension of `PathBuf::from(name)`: the extension of its final component. -/
def nameExtension (s : String) : Option String :=
  (lastComponent s).bind componentExtension

/-- Extension of a component-list path: the extension of its last component. -/
def pathExtension (p : FsPath) : Option String :=
  p.getLast?.bind componentExtension

/-- ASCII lowercase of one character (Rust `to_ascii_lowercase`). -/
def asciiLowerChar (c : Char) : Char :=
  if 'A' ≤ c ∧ c ≤ 'Z' then Char.ofNat (c.toNat + 32) else c

/-- ASCII lowercase of a string (Rust `to_ascii_lowercase`). -/
def asciiLower (s : String) : String :=
  String.mk (s.data.map asciiLowerChar)

/-- The fixed recognized-file-extension set from `get_node_type`. -/
def knownFileExts : List String := ["txt", "yml", "yaml", "gui", "csv", "dds", "json", "mod"]

/-- Whether an optional extension, ASCII-lowercased, is in the recognized set. -/
def extIsKnown (e : Option String) : Bool :=
  match e with
  | some ext => knownFileExts.contains (asciiLower ext)
  | none => false

/-- The node classifier `get_node_type` from `definition_tree.rs` (lines 283-339),
including its optional explicit-type override argument. It never touches the
filesystem (the Rust code deliberately avoids `Path::is_dir`/`is_file`). -/
def get_node_type (name : String) (rel_dir : FsPath) (value : Option String)
    (ntype : Option String) : NodeType :=
  if value.isSome then .Value
  else
    match ntype with
    | some s =>
      match s with
      | "Virtual" => .Virtual
      | "Mod" => .Mod
      | "Directory" => .Directory
      | "File" => .File
      | "Identifier" => .Identifier
      | "Value" => .Value
      | _ => .Identifier
    | none =>
      if strStartsWithChar name '<' = true ∧ strEndsWithChar name '>' = true then .Virtual
      else if rel_dir = [] then .Virtual
      else if extIsKnown (nameExtension name) then .File
      else if extIsKnown (pathExtension rel_dir) then .Identifier
      else .Directory

/-- A node of the definition tree (Rust `BaseNode`). The shared-cell fields
`sources` are represented by `srcRef`, an index into `Arena.srcStore`. -/
structure BaseNode where
  id : NodeId
  parent : Option NodeId
  children : List (String × NodeId)
  node_type : NodeType
  value : Option String
  srcRef : Nat
  name : String
  rel_dir : FsPath
  start_point : Option (Nat × Nat)
deriving DecidableEq, Repr

/-- Registered-mod data (Rust `ModData`). -/
structure ModData where
  load_order : Nat
  enabled : Bool
  name : String
  node_id : NodeId
  path : FsPath
deriving DecidableEq, Repr

/-- The arena: node vector, name index (`library`), the provenance-set store,
and the mod registry (Rust `Arena`; `srcStore` realises the `Arc` sharing). -/
structure Arena where
  nodes : List BaseNode
  library : List (String × List NodeId)
  srcStore : List (List NodeId)
  mod_data : List (NodeId × ModData)
deriving DecidableEq, Repr

/-- Placeholder node returned on out-of-range access (Rust would panic; theorems
that depend on real node contents carry in-range hypotheses). -/
def dummyNode : BaseNode :=
  { id := 0, parent := none, children := [], node_type := .Virtual, value := none,
    srcRef := 0, name := "", rel_dir := [], start_point := none }

/-- Node lookup by id (Rust `Arena::get`). -/
def Arena.getNode (a : Arena) (i : NodeId) : BaseNode := a.nodes.getD i dummyNode

/-- Contents of the provenance-set object at store index `r`. -/
def Arena.getSrcSet (a : Arena) (r : Nat) : List NodeId := a.srcStore.getD r []

/-- Provenance set of node `i` (contents of the set object it references). -/
def Arena.srcOf (a : Arena) (i : NodeId) : List NodeId := a.getSrcSet (a.getNode i).srcRef

/-- Replace node `i` by `f` applied to it. -/
def Arena.updateNode (a : Arena) (i : NodeId) (f : BaseNode → BaseNode) : Arena :=
  { a with nodes := a.nodes.set i (f (a.getNode i)) }

/-- Overwrite the provenance-set object at store index `r`. -/
def Arena.setSrcSet (a : Arena) (r : Nat) (s : List NodeId) : Arena :=
  { a with srcStore := a.srcStore.set r s }

/-- Insertion-ordered set insert (Rust `IndexSet::insert`): append if absent. -/
def sinsert (s : List NodeId) (x : NodeId) : List NodeId :=
  if x ∈ s then s else s ++ [x]

/-- Ordered-map insert (Rust `IndexMap::insert`): overwrite in place, else append. -/
def imInsert (m : List (String × NodeId)) (k : String) (v : NodeId) :
    List (String × NodeId) :=
  if m.any (fun p => p.1 == k) then m.map (fun p => if p.1 = k then (k, v) else p)
  else m ++ [(k, v)]

/-- Ordered-map lookup (first matching key). -/
def lookupC (m : List (String × NodeId)) (k : String) : Option NodeId :=
  match m with
  | [] => none
  | hd :: rest => if hd.1 = k then some hd.2 else lookupC rest k

/-- Record `i` in the name index under `name` (Rust pushes onto the entry's vector). -/
def libPush (lib : List (String × List NodeId)) (name : String) (i : NodeId) :
    List (String × List NodeId) :=
  if lib.any (fun p => p.1 == name) then
    lib.map (fun p => if p.1 = name then (p.1, p.2 ++ [i]) else p)
  else lib ++ [(name, [i])]

/-- Name-index lookup. -/
def libGet (lib : List (String × List NodeId)) (name : String) : Option (List NodeId) :=
  match lib with
  | [] => none
  | hd :: rest => if hd.1 = name then some hd.2 else libGet rest name

/-- Mod-registry insert (Rust `IndexedOrderedMap::insert`, an `IndexMap` insert). -/
def iomInsert (m : List (NodeId × ModData)) (k : NodeId) (v : ModData) :
    List (NodeId × ModData) :=
  if m.any (fun p => p.1 == k) then m.map (fun p => if p.1 = k then (k, v) else p)
  else m ++ [(k, v)]

/-- Mod-registry lookup. -/
def iomGet (m : List (NodeId × ModData)) (k : NodeId) : Option ModData :=
  match m with
  | [] => none
  | hd :: rest => if hd.1 = k then some hd.2 else iomGet rest k

/-- The empty arena (Rust `Arena::new`). -/
def Arena.new : Arena := { nodes := [], library := [], srcStore := [], mod_data := [] }

/-- Create an auto-classified node (Rust `Arena::new_node`): appends the node,
gives it a fresh empty provenance set, and records it in the name index. -/
def Arena.new_node (a : Arena) (name : String) (rel_dir : FsPath) (value : Option String) :
    Arena × NodeId :=
  let node_id := a.nodes.length
  let nt := get_node_type name rel_dir value none
  let node : BaseNode :=
    { id := node_id, parent := none, children := [], node_type := nt, value := value,
      srcRef := a.srcStore.length, name := name, rel_dir := rel_dir, start_point := none }
  ({ a with
      nodes := a.nodes ++ [node],
      library := libPush a.library name node_id,
      srcStore := a.srcStore ++ [[]] }, node_id)

/-- Create a node with an explicit type (Rust `Arena::new_typed_node`). Note:
unlike `new_node`, the Rust code does not record the node in the name index. -/
def Arena.new_typed_node (a : Arena) (name : String) (rel_dir : FsPath)
    (value : Option String) (nt : NodeType) : Arena × NodeId :=
  let node_id := a.nodes.length
  let node : BaseNode :=
    { id := node_id, parent := none, children := [], node_type := nt, value := value,
      srcRef := a.srcStore.length, name := name, rel_dir := rel_dir, start_point := none }
  ({ a with
      nodes := a.nodes ++ [node],
      srcStore := a.srcStore ++ [[]] }, node_id)

/-- Register a mod (Rust `Arena::new_mod`): a typed Mod node plus a registry entry. -/
def Arena.new_mod (a : Arena) (name : String) (enabled : Bool) (load_order : Nat)
    (path : FsPath) : Arena :=
  let (a', node_id) := a.new_typed_node name [] none .Mod
  let md : ModData :=
    { load_order := load_order, enabled := enabled, name := name,
      node_id := node_id, path := path }
  { a' with mod_data := iomInsert a'.mod_data node_id md }

/-- Global name lookup (Rust `Arena::get_by_name`). -/
def Arena.get_by_name (a : Arena) (name : String) : Option (List NodeId) :=
  libGet a.library name

/-- Record `src` in node `i`'s provenance set (Rust `Arena::set_source`). -/
def Arena.set_source (a : Arena) (i : NodeId) (src : NodeId) : Arena :=
  a.setSrcSet (a.getNode i).srcRef (sinsert (a.srcOf i) src)

/-- Set node `i`'s parent back-reference (Rust `Arena::set_parent`). -/
def Arena.set_parent (a : Arena) (i : NodeId) (p : NodeId) : Arena :=
  a.updateNode i (fun n => { n with parent := some p })

/-- Conditional provenance recording inside `set_child` (`should_set_source`):
only when the flag is set, the child is File-or-finer and the parent is Mod
or File. -/
def Arena.setSourceCond (a : Arena) (parent value : NodeId) (flag : Bool) : Arena :=
  if flag = true ∧ (a.getNode value).node_type.toNat ≤ NodeType.File.toNat ∧
      ((a.getNode parent).node_type = .Mod ∨ (a.getNode parent).node_type = .File) then
    a.set_source value parent
  else a

/-- Conditional parent-back-reference recording inside `set_child`
(`should_set_parent`): only when the parent is not Virtual. (Recording
provenance beforehand does not change any node, so reading the parent's type
here matches the Rust code, which captures it up front.) -/
def Arena.setParentCond (a : Arena) (parent value : NodeId) : Arena :=
  if (a.getNode parent).node_type ≠ .Virtual then a.set_parent value parent else a

/-- The mutation part of `set_child` (run when the attachment assertion holds):
conditional source, conditional parent, then insert/overwrite the ordered
children entry. -/
def Arena.setChildApply (a : Arena) (parent : NodeId) (key : String) (value : NodeId)
    (flag : Bool) : Arena :=
  (((a.setSourceCond parent value flag).setParentCond parent value).updateNode parent
    (fun n => { n with children := imInsert n.children key value }))

/-- Attach `value` under `parent` at `key` (Rust `Arena::set_child`). The
attachment-rule `assert!` is modelled by returning `none` on violation. -/
def Arena.set_child (a : Arena) (parent : NodeId) (key : String) (value : NodeId)
    (set_source_flag : Bool) : Option Arena :=
  if (a.getNode parent).node_type = .Virtual ∨ (a.getNode value).node_type = .Virtual ∨
      (a.getNode value).node_type.toNat ≤ (a.getNode parent).node_type.toNat then
    some (a.setChildApply parent key value set_source_flag)
  else none

/-- Stamp a node's source position (Rust `Arena::set_node_start_point`). -/
def Arena.set_node_start_point (a : Arena) (i : NodeId) (line col : Nat) : Arena :=
  a.updateNode i (fun n => { n with start_point := some (line, col) })

/-- Id-offset remapping of one node during `extend`: id, parent and children
references are shifted by `base`; the node's provenance reference is pointed
at the freshly appended set object `ref`. -/
def remapNode (base ref : Nat) (n : BaseNode) : BaseNode :=
  { n with
      id := n.id + base,
      parent := n.parent.map (fun p => p + base),
      children := n.children.map (fun kv => (kv.1, kv.2 + base)),
      srcRef := ref }

/-- The fresh provenance-set contents built by `extend` for one node: every
element of the old set, shifted by `base`, inserted in order into a new set. -/
def remapSet (base : Nat) (old : List NodeId) : List NodeId :=
  old.foldl (fun s x => sinsert s (x + base)) []

/-- Loop body of `Arena::extend` for one source node: append the remapped node
with a fresh remapped provenance set, and record it in the name index under
its (unchanged) name with its remapped id. -/
def extendStep (base : Nat) (store : List (List NodeId)) (acc : Arena)
    (n : BaseNode) : Arena :=
  { acc with
      nodes := acc.nodes ++ [remapNode base acc.srcStore.length n],
      srcStore := acc.srcStore ++ [remapSet base (store.getD n.srcRef [])],
      library := libPush acc.library n.name (n.id + base) }

/-- Bulk-append `other`'s nodes with an id offset (Rust `Arena::extend`):
parent, children and provenance references are shifted by the offset, each
appended node receives a fresh provenance-set object holding the shifted
elements, and each appended node is recorded in the name index. -/
def Arena.extend (a other : Arena) : Arena :=
  other.nodes.foldl (extendStep a.nodes.length other.srcStore) a

/-- Path walk (Rust `DefinitionNode::get_by_dir` with `default = None`): skip
"." segments, descend through children, `none` the moment a segment is missing. -/
def Arena.get_by_dir (a : Arena) (curr : NodeId) (dir : FsPath) : Option NodeId :=
  match dir with
  | [] => some curr
  | part :: rest =>
    if part = "." then a.get_by_dir curr rest
    else
      match lookupC (a.getNode curr).children part with
      | some nid => a.get_by_dir nid rest
      | none => none

/-- Loop body of `DefinitionNode::setdefault_by_dir`: walk the segments,
creating missing nodes; the terminal created node is named `default_name`,
intermediate created nodes are named after their path component. -/
def Arena.setdefault_by_dir (a : Arena) (curr : NodeId) (parts : List String)
    (default_name : String) : Option (Arena × NodeId) :=
  match parts with
  | [] => some (a, curr)
  | key :: rest =>
    match lookupC (a.getNode curr).children key with
    | some child_id => a.setdefault_by_dir child_id rest default_name
    | none =>
      let node_name := if rest = [] then default_name else key
      let rel := (a.getNode curr).rel_dir ++ [key]
      let created := a.new_node node_name rel none
      match created.1.set_child curr key created.2 true with
      | some a2 => a2.setdefault_by_dir created.2 rest default_name
      | none => none

/-- Loop body of `DefinitionNode::set_by_dir`: walk the segments, creating
intermediate Directory nodes as needed, and attach `value` at the terminal
position; an existing child at any segment (terminal included) is descended
into without modification. -/
def Arena.set_by_dir (a : Arena) (curr : NodeId) (parts : List String)
    (value : NodeId) : Option Arena :=
  match parts with
  | [] => some a
  | key :: rest =>
    match lookupC (a.getNode curr).children key with
    | some child_id => a.set_by_dir child_id rest value
    | none =>
      if rest = [] then a.set_child curr key value true
      else
        let rel := (a.getNode curr).rel_dir ++ [key]
        let created := a.new_node key rel none
        match created.1.set_child curr key created.2 true with
        | some a2 => a2.set_by_dir created.2 rest value
        | none => none

/-- Attach a list of (key, child) pairs onto `selfId` in order, always marking
provenance (the loop of `DefinitionNode::update`). -/
def Arena.updateChildren (a : Arena) (selfId : NodeId)
    (other_children : List (String × NodeId)) : Option Arena :=
  match other_children with
  | [] => some a
  | kv :: rest =>
    match a.set_child selfId kv.1 kv.2 true with
    | some a1 => a1.updateChildren selfId rest
    | none => none

/-- Shallow merge (Rust `DefinitionNode::update`): snapshot `other`'s children,
then attach each onto `self`, last write wins, no conflict bookkeeping. -/
def Arena.update (a : Arena) (selfId otherId : NodeId) : Option Arena :=
  a.updateChildren selfId (a.getNode otherId).children

/-- The fixed non-conflicting allow-list (`NON_CONFLICTING_KEYWORDS`). -/
def NON_CONFLICTING_KEYWORDS : List String := ["namespace"]

/-- Value equality of two insertion-ordered sets (indexmap `PartialEq`:
equal length and same membership, order-insensitive). -/
def indexSetEq (s t : List NodeId) : Bool :=
  (s.length == t.length) && s.all (fun x => t.contains x)

/-- Redirect node `i`'s provenance reference to store index `r` (the Rust
`arena.get_mut(other_id).sources = exist_sources_lock` object-sharing step). -/
def Arena.setNodeSrcRef (a : Arena) (i : NodeId) (r : Nat) : Arena :=
  a.updateNode i (fun n => { n with srcRef := r })

/-- One iteration of the `update_with_conflict_check` loop for `(key, other_id)`:
conflict detection/unioning for an existing different child, then the
unconditional last-write-wins `set_child`. The `assert!` that both children
are in conflict after the union is modelled by `none`. -/
def uwccStep (selfId : NodeId) (st : Arena × List FsPath) (kv : String × NodeId) :
    Option (Arena × List FsPath) :=
  let a := st.1
  let conflicts := st.2
  let key := kv.1
  let other_id := kv.2
  let afterConflict : Option (Arena × List FsPath) :=
    match lookupC (a.getNode selfId).children key with
    | none => some (a, conflicts)
    | some exist_id =>
      if exist_id ≠ other_id then
        let exRef := (a.getNode exist_id).srcRef
        let otRef := (a.getNode other_id).srcRef
        if exRef ≠ otRef then
          let exS := a.getSrcSet exRef
          let otS := a.getSrcSet otRef
          if indexSetEq exS otS = false ∧ key ∉ NON_CONFLICTING_KEYWORDS then
            let rd := (a.getNode selfId).rel_dir
            let conflicts' :=
              if (rd ++ [key]) ∈ conflicts then conflicts else conflicts ++ [rd ++ [key]]
            let union := otS.foldl sinsert exS
            let a1 := (a.setSrcSet exRef union).setNodeSrcRef other_id exRef
            if 1 < (a1.srcOf exist_id).length ∧ 1 < (a1.srcOf other_id).length then
              some (a1, conflicts')
            else none
          else some (a, conflicts)
        else some (a, conflicts)
      else some (a, conflicts)
  match afterConflict with
  | none => none
  | some st1 =>
    match st1.1.set_child selfId key other_id true with
    | some a2 => some (a2, st1.2)
    | none => none

/-- Fold of `uwccStep` over a snapshot of the incoming children. -/
def uwccFold (selfId : NodeId) (st : Arena × List FsPath) :
    List (String × NodeId) → Option (Arena × List FsPath)
  | [] => some st
  | kv :: rest =>
    match uwccStep selfId st kv with
    | some st' => uwccFold selfId st' rest
    | none => none

/-- Provenance-identity-based merge with conflict reporting (Rust
`DefinitionNode::update_with_conflict_check`). Returns the updated arena and
the conflict paths newly discovered by this call. -/
def Arena.update_with_conflict_check (a : Arena) (selfId otherId : NodeId) :
    Option (Arena × List FsPath) :=
  uwccFold selfId (a, []) (a.getNode otherId).children

/-- Rust `Path::parent`: `none` for the empty path, else drop the last component. -/
def pathParent (p : FsPath) : Option FsPath :=
  match p with
  | [] => none
  | _ => some p.dropLast

mutual
/-- Concrete syntax tree vocabulary consumed by `_extract_script_definitions`
(tree-sitter node kinds): scalar tokens carry their text and start position;
assignments carry the key token's text/position and the value node;
`tagged_array` carries the tag text and the value node's children; `punct`
stands for every unhandled kind (braces, comments, ...). -/
inductive TS where
  | simple_value (text : String) (row col : Nat)
  | statement (children : TSList)
  | source_file (children : TSList)
  | mapNode (children : TSList)
  | assignment (keyText : String) (keyRow keyCol : Nat) (value : TS)
  | typed_assignment (keyText : String) (keyRow keyCol : Nat) (value : TS)
  | array (children : TSList)
  | tagged_array (tag : String) (elems : TSList)
  | punct

/-- Lists of syntax nodes (children sequences). -/
inductive TSList where
  | nil
  | cons (hd : TS) (tl : TSList)
end

/-- Texts of the `simple_value` children of an array node (Rust `extract_array_vals`). -/
def arrayVals : TSList → List String
  | .nil => []
  | .cons (.simple_value t _ _) tl => t :: arrayVals tl
  | .cons _ tl => arrayVals tl

/-- Rendering of a collected value list, `format!("\x7b:?\x7d", values)` on a
`Vec<String>` (quoted, comma-separated, bracketed; escape sequences inside the
element strings are not modelled). -/
def renderVals (vs : List String) : String :=
  "[" ++ String.intercalate ", " (vs.map (fun s => "\"" ++ s ++ "\"")) ++ "]"

mutual
/-- Grammar-directed script extraction (Rust `_extract_script_definitions`):
depth cutoff first (a positive limit exceeded returns the arena unchanged),
then dispatch on the syntax-node kind. `assert!` failures inside `set_child`
surface as `none`. -/
def extractScript (a : Arena) (ts : TS) (root : NodeId) (maxd depth : Int) :
    Option Arena :=
  if maxd > 0 ∧ depth > maxd then some a
  else
    match ts with
    | .punct => some a
    | .simple_value _ _ _ => some a
    | .array _ => some a
    | .tagged_array _ _ => some a
    | .statement cs => extractStmtChildren a cs root maxd depth
    | .source_file cs => extractScriptList a cs root maxd depth
    | .mapNode cs => extractScriptList a cs root maxd depth
    | .assignment k kr kc v => extractAssign a k kr kc v root maxd depth
    | .typed_assignment k kr kc v => extractAssign a k kr kc v root maxd depth
termination_by (sizeOf ts, 0)

/-- Children loop of the `statement` kind: a bare scalar child becomes a
self-named Value leaf stamped with the token position; other children recurse. -/
def extractStmtChildren (a : Arena) (cs : TSList) (root : NodeId) (maxd depth : Int) :
    Option Arena :=
  match cs with
  | .nil => some a
  | .cons (.simple_value t row col) tl =>
    let created := a.new_node t (a.getNode root).rel_dir (some t)
    let a1 := created.1.set_node_start_point created.2 row col
    (match a1.set_child root t created.2 true with
     | some a2 => extractStmtChildren a2 tl root maxd depth
     | none => none)
  | .cons hd tl =>
    match extractScript a hd root maxd (depth + 1) with
    | some a1 => extractStmtChildren a1 tl root maxd depth
    | none => none
termination_by (sizeOf cs, 0)

/-- Children loop of the pure container kinds (`source_file`, `map`):
recurse into every child at depth + 1, creating no node. -/
def extractScriptList (a : Arena) (cs : TSList) (root : NodeId) (maxd depth : Int) :
    Option Arena :=
  match cs with
  | .nil => some a
  | .cons hd tl =>
    match extractScript a hd root maxd (depth + 1) with
    | some a1 => extractScriptList a1 tl root maxd depth
    | none => none
termination_by (sizeOf cs, 0)

/-- The `assignment`/`typed_assignment` case: dispatch on the value's shape
(scalar, array, tagged array, nested block), then stamp the container node
with the key token's position. -/
def extractAssign (a : Arena) (key : String) (keyRow keyCol : Nat) (v : TS)
    (root : NodeId) (maxd depth : Int) : Option Arena :=
  let handled : Option Arena :=
    match v with
    | .simple_value t _ _ =>
      let created := a.new_node key (a.getNode root).rel_dir (some t)
      created.1.set_child root key created.2 true
    | .array cs =>
      let created := a.new_node key (a.getNode root).rel_dir (some (renderVals (arrayVals cs)))
      created.1.set_child root key created.2 true
    | .tagged_array tag cs =>
      let created := a.new_node key (a.getNode root).rel_dir
        (some (tag ++ renderVals (arrayVals cs)))
      created.1.set_child root key created.2 true
    | nested =>
      let created := a.new_node key (a.getNode root).rel_dir none
      match extractScript created.1 nested created.2 maxd (depth + 1) with
      | some a1 => a1.set_child root key created.2 true
      | none => none
  match handled with
  | some a1 => some (a1.set_node_start_point root keyRow keyCol)
  | none => none
termination_by (sizeOf v, 1)
end

/-- State of the `DefinitionExtractor` that the fold phase touches: the shared
arena, the run-wide conflict set, and the two conflict-checking toggles. -/
structure ExtractorSt where
  arena : Arena
  conflicts : List FsPath
  check_loc_conflicts : Bool
  check_script_conflicts : Bool
deriving DecidableEq, Repr

/-- Accumulate newly found conflict paths into the run-wide set
(`self.conflicts.extend(conflicts)`, `HashSet` semantics). -/
def unionPaths (c d : List FsPath) : List FsPath :=
  d.foldl (fun acc p => if p ∈ acc then acc else acc ++ [p]) c

/-- Part (b) of each fold iteration (identical for the txt and yml loops):
link the per-file subtree at its literal path — if a node already exists
there, record the mod as a source and merge children into it, otherwise
force-attach the file root at that path. -/
def linkFileNode (a4 : Arena) (cst : List FsPath) (mod_id file_root : NodeId)
    (rel_dir : FsPath) (st : ExtractorSt) : Option ExtractorSt :=
  match a4.get_by_dir 0 rel_dir with
  | some existing =>
    let a5 := a4.set_source existing mod_id
    match a5.update existing file_root with
    | some a6 => some { st with arena := a6, conflicts := cst }
    | none => none
  | none =>
    match a4.set_by_dir 0 rel_dir file_root with
    | some a6 => some { st with arena := a6, conflicts := cst }
    | none => none

/-- Part (a) of one txt fold iteration (`extract_definitions`, txt loop):
append the per-file arena, record the mod as the file root's source, ensure
the `<def>` aggregate container exists next to the file's directory, and —
only for enabled mods — merge the file's children into it (plainly, or with
conflict checking per the toggle). Returns the arena, the run-wide conflict
set so far, and the file's relative directory. -/
def foldTxtA (st : ExtractorSt) (mod_id : NodeId) (fa : Arena) :
    Option (Arena × List FsPath × FsPath) :=
  let txt_root := st.arena.nodes.length
  let a2 := (st.arena.extend fa).set_source txt_root mod_id
  let rel_dir := (a2.getNode txt_root).rel_dir
  match pathParent rel_dir with
  | none => some (a2, st.conflicts, rel_dir)
  | some parent_rel =>
    let def_path := parent_rel ++ ["<def>"]
    match a2.setdefault_by_dir 0 def_path "<def>" with
    | none => none
    | some sd =>
      let a3 := sd.1
      match a3.get_by_dir 0 def_path with
      | none => some (a3, st.conflicts, rel_dir)
      | some def_id =>
        match iomGet a3.mod_data mod_id with
        | none => none
        | some md =>
          if md.enabled = false then some (a3, st.conflicts, rel_dir)
          else if st.check_script_conflicts = false then
            match a3.update def_id txt_root with
            | some a4 => some (a4, st.conflicts, rel_dir)
            | none => none
          else
            match a3.update_with_conflict_check def_id txt_root with
            | some r => some (r.1, unionPaths st.conflicts r.2, rel_dir)
            | none => none

/-- One whole txt fold iteration: part (a) then the literal-path link (b). -/
def foldTxtStep (st : ExtractorSt) (mod_id : NodeId) (fa : Arena) :
    Option ExtractorSt :=
  let txt_root := st.arena.nodes.length
  match foldTxtA st mod_id fa with
  | some r => linkFileNode r.1 r.2.1 mod_id txt_root r.2.2 st
  | none => none

/-- Part (a) of one yml (localization) fold iteration: same shape as the txt
loop but targeting the `<loc>` aggregate and gated by `check_loc_conflicts`.
Note the Rust yml loop has no enabled-flag check. -/
def foldYmlA (st : ExtractorSt) (mod_id : NodeId) (fa : Arena) :
    Option (Arena × List FsPath × FsPath) :=
  let yml_root := st.arena.nodes.length
  let a2 := (st.arena.extend fa).set_source yml_root mod_id
  let rel_dir := (a2.getNode yml_root).rel_dir
  match pathParent rel_dir with
  | none => some (a2, st.conflicts, rel_dir)
  | some parent_rel =>
    let loc_path := parent_rel ++ ["<loc>"]
    match a2.setdefault_by_dir 0 loc_path "<loc>" with
    | none => none
    | some sd =>
      let a3 := sd.1
      match a3.get_by_dir 0 loc_path with
      | none => some (a3, st.conflicts, rel_dir)
      | some loc_id =>
        if st.check_loc_conflicts = false then
          match a3.update loc_id yml_root with
          | some a4 => some (a4, st.conflicts, rel_dir)
          | none => none
        else
          match a3.update_with_conflict_check loc_id yml_root with
          | some r => some (r.1, unionPaths st.conflicts r.2, rel_dir)
          | none => none

/-- One whole yml fold iteration: part (a) then the literal-path link (b). -/
def foldYmlStep (st : ExtractorSt) (mod_id : NodeId) (fa : Arena) :
    Option ExtractorSt :=
  let yml_root := st.arena.nodes.length
  match foldYmlA st mod_id fa with
  | some r => linkFileNode r.1 r.2.1 mod_id yml_root r.2.2 st
  | none => none

/-! Basic lemmas about the arena state operations. -/

theorem updateNode_oob (a : Arena) (i : NodeId) (f : BaseNode → BaseNode)
    (h : a.nodes.length ≤ i) : a.updateNode i f = a := by
  simp [Arena.updateNode, List.set_eq_of_length_le h]

theorem getNode_updateNode_self (a : Arena) (i : NodeId) (f : BaseNode → BaseNode)
    (h : i < a.nodes.length) : (a.updateNode i f).getNode i = f (a.getNode i) := by
  simp [Arena.updateNode, Arena.getNode, List.getD_eq_getElem?_getD,
    List.getElem?_set_self h]

theorem getNode_updateNode_ne (a : Arena) (i j : NodeId) (f : BaseNode → BaseNode)
    (h : i ≠ j) : (a.updateNode i f).getNode j = a.getNode j := by
  simp [Arena.updateNode, Arena.getNode, List.getD_eq_getElem?_getD,
    List.getElem?_set_ne h]

theorem nodes_length_updateNode (a : Arena) (i : NodeId) (f : BaseNode → BaseNode) :
    (a.updateNode i f).nodes.length = a.nodes.length := by
  simp [Arena.updateNode]

theorem getSrcSet_updateNode (a : Arena) (i : NodeId) (f : BaseNode → BaseNode)
    (r : Nat) : (a.updateNode i f).getSrcSet r = a.getSrcSet r := by
  simp [Arena.updateNode, Arena.getSrcSet]

theorem library_updateNode (a : Arena) (i : NodeId) (f : BaseNode → BaseNode) :
    (a.updateNode i f).library = a.library := rfl

theorem mod_data_updateNode (a : Arena) (i : NodeId) (f : BaseNode → BaseNode) :
    (a.updateNode i f).mod_data = a.mod_data := rfl

theorem getNode_setSrcSet (a : Arena) (r : Nat) (s : List NodeId) (i : NodeId) :
    (a.setSrcSet r s).getNode i = a.getNode i := by
  simp [Arena.setSrcSet, Arena.getNode]

theorem nodes_setSrcSet (a : Arena) (r : Nat) (s : List NodeId) :
    (a.setSrcSet r s).nodes = a.nodes := rfl

theorem getSrcSet_setSrcSet_self (a : Arena) (r : Nat) (s : List NodeId)
    (h : r < a.srcStore.length) : (a.setSrcSet r s).getSrcSet r = s := by
  simp [Arena.setSrcSet, Arena.getSrcSet, List.getD_eq_getElem?_getD,
    List.getElem?_set_self h]

theorem getSrcSet_setSrcSet_ne (a : Arena) (r r' : Nat) (s : List NodeId)
    (h : r ≠ r') : (a.setSrcSet r s).getSrcSet r' = a.getSrcSet r' := by
  simp [Arena.setSrcSet, Arena.getSrcSet, List.getD_eq_getElem?_getD,
    List.getElem?_set_ne h]

theorem nodes_set_source (a : Arena) (i src : NodeId) :
    (a.set_source i src).nodes = a.nodes := rfl

theorem getNode_set_source (a : Arena) (i src j : NodeId) :
    (a.set_source i src).getNode j = a.getNode j := by
  simp [Arena.set_source, getNode_setSrcSet]

theorem srcStore_length_setSrcSet (a : Arena) (r : Nat) (s : List NodeId) :
    (a.setSrcSet r s).srcStore.length = a.srcStore.length := by
  simp [Arena.setSrcSet]

/-! Lemmas about `set_child`. -/

/-- The attachment assertion condition, as evaluated by `set_child`. -/
def attachOk (a : Arena) (parent value : NodeId) : Prop :=
  (a.getNode parent).node_type = .Virtual ∨ (a.getNode value).node_type = .Virtual ∨
    (a.getNode value).node_type.toNat ≤ (a.getNode parent).node_type.toNat

instance (a : Arena) (p v : NodeId) : Decidable (attachOk a p v) := by
  unfold attachOk; infer_instance

theorem set_child_isSome_iff (a : Arena) (p : NodeId) (k : String) (v : NodeId)
    (b : Bool) : (a.set_child p k v b).isSome ↔ attachOk a p v := by
  unfold Arena.set_child
  split
  · rename_i h
    simp only [Option.isSome_some, true_iff]
    exact h
  · rename_i h
    simp only [Option.isSome_none, Bool.false_eq_true, false_iff]
    exact h

theorem set_child_none_of_not (a : Arena) (p : NodeId) (k : String) (v : NodeId)
    (b : Bool) (h : ¬ attachOk a p v) : a.set_child p k v b = none := by
  have hs := set_child_isSome_iff a p k v b
  cases hc : a.set_child p k v b with
  | none => rfl
  | some x => exact absurd (hs.mp (by simp [hc])) h

theorem set_child_eq_some (a : Arena) (p : NodeId) (k : String) (v : NodeId)
    (b : Bool) (a' : Arena) (h : a.set_child p k v b = some a') :
    a' = a.setChildApply p k v b := by
  unfold Arena.set_child at h
  split at h
  · exact (Option.some.injEq _ _ ▸ h).symm
  · cases h

/-- A generic frame lemma: a node-field observation preserved by `f` is
preserved by `updateNode`. -/
theorem field_updateNode {α : Type} (a : Arena) (i j : NodeId) (f : BaseNode → BaseNode)
    (g : BaseNode → α) (hf : ∀ n, g (f n) = g n) :
    g ((a.updateNode i f).getNode j) = g (a.getNode j) := by
  by_cases hij : i = j
  · subst hij
    by_cases hi : i < a.nodes.length
    · rw [getNode_updateNode_self a i f hi, hf]
    · rw [updateNode_oob a i f (Nat.le_of_not_lt hi)]
  · rw [getNode_updateNode_ne a i j f hij]

theorem nodes_setSourceCond (a : Arena) (p v : NodeId) (b : Bool) :
    (a.setSourceCond p v b).nodes = a.nodes := by
  unfold Arena.setSourceCond
  split <;> simp [nodes_set_source]

theorem getNode_setSourceCond (a : Arena) (p v : NodeId) (b : Bool) (j : NodeId) :
    (a.setSourceCond p v b).getNode j = a.getNode j := by
  simp [Arena.getNode, nodes_setSourceCond]

theorem srcStore_length_setSourceCond (a : Arena) (p v : NodeId) (b : Bool) :
    (a.setSourceCond p v b).srcStore.length = a.srcStore.length := by
  unfold Arena.setSourceCond
  split <;> simp [Arena.set_source, srcStore_length_setSrcSet]

theorem nodes_length_setParentCond (a : Arena) (p v : NodeId) :
    (a.setParentCond p v).nodes.length = a.nodes.length := by
  unfold Arena.setParentCond
  split <;> simp [Arena.set_parent, nodes_length_updateNode]

theorem getSrcSet_setParentCond (a : Arena) (p v : NodeId) (r : Nat) :
    (a.setParentCond p v).getSrcSet r = a.getSrcSet r := by
  unfold Arena.setParentCond
  split <;> simp [Arena.set_parent, getSrcSet_updateNode]

theorem srcStore_length_setParentCond (a : Arena) (p v : NodeId) :
    (a.setParentCond p v).srcStore.length = a.srcStore.length := by
  unfold Arena.setParentCond
  split <;> simp [Arena.set_parent, Arena.updateNode]

theorem field_setParentCond {α : Type} (a : Arena) (p v j : NodeId)
    (g : BaseNode → α) (hg : ∀ n q, g { n with parent := some q } = g n) :
    g ((a.setParentCond p v).getNode j) = g (a.getNode j) := by
  unfold Arena.setParentCond
  split
  · exact field_updateNode a v j _ g (fun n => hg n p)
  · rfl

theorem set_child_nodes_length (a : Arena) (p : NodeId) (k : String) (v : NodeId)
    (b : Bool) (a' : Arena) (h : a.set_child p k v b = some a') :
    a'.nodes.length = a.nodes.length := by
  rw [set_child_eq_some a p k v b a' h]
  unfold Arena.setChildApply
  rw [nodes_length_updateNode, nodes_length_setParentCond]
  simp [nodes_setSourceCond]

theorem setSrcSet_oob (a : Arena) (r : Nat) (s : List NodeId)
    (h : a.srcStore.length ≤ r) : a.setSrcSet r s = a := by
  simp [Arena.setSrcSet, List.set_eq_of_length_le h]

theorem srcStore_updateNode (a : Arena) (i : NodeId) (f : BaseNode → BaseNode) :
    (a.updateNode i f).srcStore = a.srcStore := rfl

theorem mem_sinsert (s : List NodeId) (x y : NodeId) :
    y ∈ sinsert s x ↔ y ∈ s ∨ y = x := by
  unfold sinsert
  split
  · rename_i h
    constructor
    · exact Or.inl
    · rintro (h' | rfl)
      · exact h'
      · exact h
  · simp

theorem mem_getSrcSet_set_source_mono (a : Arena) (i src : NodeId) (r : Nat)
    (x : NodeId) (h : x ∈ a.getSrcSet r) : x ∈ (a.set_source i src).getSrcSet r := by
  unfold Arena.set_source
  by_cases hr : (a.getNode i).srcRef = r
  · subst hr
    by_cases hlen : (a.getNode i).srcRef < a.srcStore.length
    · rw [getSrcSet_setSrcSet_self _ _ _ hlen, Arena.srcOf, mem_sinsert]
      exact Or.inl h
    · rw [setSrcSet_oob _ _ _ (Nat.le_of_not_lt hlen)]
      exact h
  · rw [getSrcSet_setSrcSet_ne _ _ _ _ hr]
    exact h

theorem mem_getSrcSet_set_source_sub (a : Arena) (i src : NodeId) (r : Nat)
    (x : NodeId) (h : x ∈ (a.set_source i src).getSrcSet r) :
    x ∈ a.getSrcSet r ∨ x = src := by
  unfold Arena.set_source at h
  by_cases hr : (a.getNode i).srcRef = r
  · subst hr
    by_cases hlen : (a.getNode i).srcRef < a.srcStore.length
    · rw [getSrcSet_setSrcSet_self _ _ _ hlen, Arena.srcOf, mem_sinsert] at h
      exact h
    · rw [setSrcSet_oob _ _ _ (Nat.le_of_not_lt hlen)] at h
      exact Or.inl h
  · rw [getSrcSet_setSrcSet_ne _ _ _ _ hr] at h
    exact Or.inl h

theorem mem_getSrcSet_setChildApply_mono (a : Arena) (p : NodeId) (k : String)
    (v : NodeId) (b : Bool) (r : Nat) (x : NodeId) (h : x ∈ a.getSrcSet r) :
    x ∈ (a.setChildApply p k v b).getSrcSet r := by
  unfold Arena.setChildApply
  rw [show (Arena.getSrcSet _ r) =
    (((a.setSourceCond p v b).setParentCond p v).getSrcSet r) from
      getSrcSet_updateNode _ _ _ r]
  rw [getSrcSet_setParentCond]
  unfold Arena.setSourceCond
  split
  · exact mem_getSrcSet_set_source_mono a v p r x h
  · exact h

theorem mem_getSrcSet_setChildApply_sub (a : Arena) (p : NodeId) (k : String)
    (v : NodeId) (b : Bool) (r : Nat) (x : NodeId)
    (h : x ∈ (a.setChildApply p k v b).getSrcSet r) :
    x ∈ a.getSrcSet r ∨ x = p := by
  unfold Arena.setChildApply at h
  rw [show (Arena.getSrcSet _ r) =
    (((a.setSourceCond p v b).setParentCond p v).getSrcSet r) from
      getSrcSet_updateNode _ _ _ r] at h
  rw [getSrcSet_setParentCond] at h
  unfold Arena.setSourceCond at h
  split at h
  · exact mem_getSrcSet_set_source_sub a v p r x h
  · exact Or.inl h

theorem srcStore_length_setChildApply (a : Arena) (p : NodeId) (k : String)
    (v : NodeId) (b : Bool) :
    (a.setChildApply p k v b).srcStore.length = a.srcStore.length := by
  unfold Arena.setChildApply
  rw [srcStore_updateNode ((a.setSourceCond p v b).setParentCond p v) p
    (fun n => { n with children := imInsert n.children k v })]
  rw [srcStore_length_setParentCond, srcStore_length_setSourceCond]

theorem children_setChildApply_self (a : Arena) (p : NodeId) (k : String)
    (v : NodeId) (b : Bool) (hp : p < a.nodes.length) :
    ((a.setChildApply p k v b).getNode p).children =
      imInsert (a.getNode p).children k v := by
  unfold Arena.setChildApply
  have hlen : p < ((a.setSourceCond p v b).setParentCond p v).nodes.length := by
    rw [nodes_length_setParentCond]
    simpa [nodes_setSourceCond] using hp
  rw [getNode_updateNode_self _ _ _ hlen]
  have hch : (((a.setSourceCond p v b).setParentCond p v).getNode p).children =
      (a.getNode p).children := by
    rw [field_setParentCond _ _ _ _ (fun n => n.children) (fun n q => rfl),
      getNode_setSourceCond]
  simp [hch]

theorem children_setChildApply_ne (a : Arena) (p : NodeId) (k : String)
    (v : NodeId) (b : Bool) (q : NodeId) (hq : q ≠ p) :
    ((a.setChildApply p k v b).getNode q).children = (a.getNode q).children := by
  unfold Arena.setChildApply
  rw [getNode_updateNode_ne _ _ _ _ (fun h => hq h.symm)]
  rw [field_setParentCond _ _ _ _ (fun n => n.children) (fun n q' => rfl),
    getNode_setSourceCond]

theorem node_type_setChildApply (a : Arena) (p : NodeId) (k : String)
    (v : NodeId) (b : Bool) (j : NodeId) :
    ((a.setChildApply p k v b).getNode j).node_type = (a.getNode j).node_type := by
  unfold Arena.setChildApply
  rw [field_updateNode ((a.setSourceCond p v b).setParentCond p v) p j
    (fun n => { n with children := imInsert n.children k v }) (fun n => n.node_type)
    (fun n => rfl)]
  rw [field_setParentCond _ _ _ _ (fun n => n.node_type) (fun n q => rfl),
    getNode_setSourceCond]

theorem srcRef_setChildApply (a : Arena) (p : NodeId) (k : String)
    (v : NodeId) (b : Bool) (j : NodeId) :
    ((a.setChildApply p k v b).getNode j).srcRef = (a.getNode j).srcRef := by
  unfold Arena.setChildApply
  rw [field_updateNode ((a.setSourceCond p v b).setParentCond p v) p j
    (fun n => { n with children := imInsert n.children k v }) (fun n => n.srcRef)
    (fun n => rfl)]
  rw [field_setParentCond _ _ _ _ (fun n => n.srcRef) (fun n q => rfl),
    getNode_setSourceCond]

theorem rel_dir_setChildApply (a : Arena) (p : NodeId) (k : String)
    (v : NodeId) (b : Bool) (j : NodeId) :
    ((a.setChildApply p k v b).getNode j).rel_dir = (a.getNode j).rel_dir := by
  unfold Arena.setChildApply
  rw [field_updateNode ((a.setSourceCond p v b).setParentCond p v) p j
    (fun n => { n with children := imInsert n.children k v }) (fun n => n.rel_dir)
    (fun n => rfl)]
  rw [field_setParentCond _ _ _ _ (fun n => n.rel_dir) (fun n q => rfl),
    getNode_setSourceCond]

theorem parent_setChildApply_virtual (a : Arena) (p : NodeId) (k : String)
    (v : NodeId) (b : Bool) (j : NodeId)
    (hp : (a.getNode p).node_type = .Virtual) :
    ((a.setChildApply p k v b).getNode j).parent = (a.getNode j).parent := by
  unfold Arena.setChildApply Arena.setParentCond
  rw [if_neg (by simp [getNode_setSourceCond, hp])]
  rw [field_updateNode (a.setSourceCond p v b) p j
    (fun n => { n with children := imInsert n.children k v }) (fun n => n.parent)
    (fun n => rfl)]
  rw [getNode_setSourceCond]

/-! Claim C4: the attachment rule of `set_child`. -/

/-- C4: `set_child(parent, key, child, _)` halts (assertion failure, modelled
as `none`) exactly when the parent's type is not Virtual, the child's type is
not Virtual, and the parent's type is strictly below the child's in the
derived order; in every other case the attachment proceeds, so every completed
attachment satisfies parent.node_type >= child.node_type or one side Virtual. -/
theorem c4_set_child_attachment_rule (a : Arena) (p : NodeId) (k : String)
    (v : NodeId) (b : Bool) :
    a.set_child p k v b = none ↔
      ((a.getNode p).node_type ≠ .Virtual ∧ (a.getNode v).node_type ≠ .Virtual ∧
        (a.getNode p).node_type.toNat < (a.getNode v).node_type.toNat) := by
  unfold Arena.set_child
  split
  · rename_i h
    constructor
    · intro hc
      exact Option.noConfusion hc
    · rintro ⟨hA, hB, hC⟩
      rcases h with h | h | h
      · exact absurd h hA
      · exact absurd h hB
      · exact absurd hC (by omega)
  · rename_i h
    push_neg at h
    simp only [true_iff]
    exact ⟨h.1, h.2.1, by omega⟩

/-! Claim C10: a Virtual parent is not recorded as the child's parent. -/

/-- C10: when `set_child`'s parent node is Virtual and the call completes, the
child's parent back-reference is left unchanged — only a non-Virtual parent is
recorded as the child's parent. -/
theorem c10_virtual_parent_frame (a : Arena) (p : NodeId) (k : String) (v : NodeId)
    (b : Bool) (a' : Arena) (hp : (a.getNode p).node_type = .Virtual)
    (h : a.set_child p k v b = some a') :
    (a'.getNode v).parent = (a.getNode v).parent := by
  rw [set_child_eq_some a p k v b a' h]
  exact parent_setChildApply_virtual a p k v b v hp

/-- Concrete two-node arena (a Virtual root and a Directory), used to witness C10. -/
def c10wArena : Arena :=
  { nodes := [
      { id := 0, parent := none, children := [], node_type := .Virtual, value := none,
        srcRef := 0, name := "<root>", rel_dir := [], start_point := none },
      { id := 1, parent := none, children := [], node_type := .Directory, value := none,
        srcRef := 1, name := "common", rel_dir := ["common"], start_point := none }],
    library := [("<root>", [0]), ("common", [1])],
    srcStore := [[], []],
    mod_data := [] }

/-- Witness for C10: attaching the Directory node under the Virtual root
completes and leaves the child's parent back-reference unchanged. -/
theorem c10_virtual_parent_frame_witness :
    (((c10wArena.set_child 0 "common" 1 true).getD Arena.new).getNode 1).parent =
      (c10wArena.getNode 1).parent :=
  c10_virtual_parent_frame c10wArena 0 "common" 1 true
    ((c10wArena.set_child 0 "common" 1 true).getD Arena.new)
    (by decide) (by decide)

/-! Claim C5: the node classifier matches its specification. -/

/-- Classifier behaviour as worded by the spec: Value whenever a literal value
is present; otherwise Virtual when the name is wrapped in angle brackets or
the relative directory is empty; otherwise File when the name's extension
(case-insensitively) is in the fixed recognized set; otherwise Identifier when
the relative directory's extension is in that set; otherwise Directory. -/
def nodeTypeSpec (name : String) (rel_dir : FsPath) (value : Option String) : NodeType :=
  if value.isSome then .Value
  else if (strStartsWithChar name '<' = true ∧ strEndsWithChar name '>' = true) ∨
      rel_dir = [] then .Virtual
  else if extIsKnown (nameExtension name) then .File
  else if extIsKnown (pathExtension rel_dir) then .Identifier
  else .Directory

/-- C5: the classifier actually used when nodes are created (`get_node_type`
with no explicit-type override) is a pure function of (name, relative
directory, optional value) and agrees with the spec's case analysis. It never
touches the filesystem: the embedding is a total function of its arguments. -/
theorem c5_classifier_matches_spec (name : String) (rel_dir : FsPath)
    (value : Option String) :
    get_node_type name rel_dir value none = nodeTypeSpec name rel_dir value := by
  unfold get_node_type nodeTypeSpec
  by_cases h1 : value.isSome
  · simp [h1]
  · by_cases h2 : strStartsWithChar name '<' = true ∧ strEndsWithChar name '>' = true
    · simp [h1, h2]
    · by_cases h3 : rel_dir = ([] : FsPath)
      · simp [h1, h2, h3]
      · simp [h1, h2, h3]

/-! Claim C9: which node creations feed the name index. -/

/-- C9 counterexample: registering a Mod (via `new_mod`, hence
`new_typed_node`) does not index that node under its name — `get_by_name`
still returns nothing, contradicting the claim that every created node,
including explicitly-typed Mod nodes, is indexed. -/
theorem c9_counterexample :
    (Arena.new.new_mod "ModA" true 0 []).get_by_name "ModA" = none := by decide

/-- Any node created by `new_node` is indexed under the name it was created with. -/
theorem mem_libGet_libPush (n : String) (i : NodeId) (lib : List (String × List NodeId)) :
    i ∈ (libGet (libPush lib n i) n).getD [] := by
  induction lib with
  | nil => simp [libPush, libGet]
  | cons hd tl ih =>
    by_cases hh : hd.1 = n
    · have hany : (hd :: tl).any (fun p => p.1 == n) = true := by
        simp [List.any_cons, hh]
      unfold libPush
      rw [if_pos hany, List.map_cons, if_pos hh]
      simp only [libGet]
      rw [if_pos hh]
      simp
    · unfold libPush at ih ⊢
      have hcond : ((hd :: tl).any (fun p => p.1 == n)) = (tl.any (fun p => p.1 == n)) := by
        simp [List.any_cons, hh]
      rw [hcond]
      by_cases hany : tl.any (fun p => p.1 == n) = true
      · rw [if_pos hany] at ih ⊢
        rw [List.map_cons, if_neg hh]
        simp only [libGet]
        rw [if_neg hh]
        exact ih
      · rw [if_neg hany] at ih ⊢
        rw [List.cons_append]
        simp only [libGet]
        rw [if_neg hh]
        exact ih

/-- C9 amended: a node created via `new_node` is always recorded in the name
index under its literal name (so `get_by_name` returns it), while a node
created via `new_typed_node` — e.g. a Mod node — leaves the name index
untouched and is therefore not findable by name. -/
theorem c9_amended_name_index (a : Arena) (n : String) (d : FsPath)
    (v : Option String) :
    (a.new_node n d v).2 ∈ ((a.new_node n d v).1.get_by_name n).getD [] ∧
      (∀ nt : NodeType, ∀ val : Option String,
        (a.new_typed_node n d val nt).1.library = a.library) := by
  constructor
  · unfold Arena.new_node Arena.get_by_name
    exact mem_libGet_libPush n a.nodes.length a.library
  · intro nt val
    rfl

/-! Claim C6: `extend` appends id-remapped nodes. -/

theorem mem_remapSet_aux (base : Nat) (old init : List NodeId) (x : NodeId) :
    x ∈ old.foldl (fun s y => sinsert s (y + base)) init ↔
      x ∈ init ∨ ∃ t ∈ old, x = t + base := by
  induction old generalizing init with
  | nil => simp
  | cons hd tl ih =>
    rw [List.foldl_cons, ih]
    rw [mem_sinsert]
    constructor
    · rintro ((hx | hx) | ⟨t, ht, rfl⟩)
      · exact Or.inl hx
      · exact Or.inr ⟨hd, by simp, hx⟩
      · exact Or.inr ⟨t, by simp [ht], rfl⟩
    · rintro (hx | ⟨t, ht, rfl⟩)
      · exact Or.inl (Or.inl hx)
      · rcases List.mem_cons.mp ht with rfl | ht
        · exact Or.inl (Or.inr rfl)
        · exact Or.inr ⟨t, ht, rfl⟩

theorem mem_remapSet (base : Nat) (old : List NodeId) (x : NodeId) :
    x ∈ remapSet base old ↔ ∃ t ∈ old, x = t + base := by
  unfold remapSet
  rw [mem_remapSet_aux]
  simp

/-- The `extend` fold only appends: the accumulator's nodes and set store stay
as prefixes. -/
theorem foldl_extendStep_append (base : Nat) (store : List (List NodeId)) :
    ∀ (l : List BaseNode) (acc : Arena),
      ∃ tn ts, (l.foldl (extendStep base store) acc).nodes = acc.nodes ++ tn ∧
        (l.foldl (extendStep base store) acc).srcStore = acc.srcStore ++ ts := by
  intro l
  induction l with
  | nil => exact fun acc => ⟨[], [], by simp, by simp⟩
  | cons hd tl ih =>
    intro acc
    rcases ih (extendStep base store acc hd) with ⟨tn, ts, h1, h2⟩
    refine ⟨remapNode base acc.srcStore.length hd :: tn,
      remapSet base (store.getD hd.srcRef []) :: ts, ?_, ?_⟩
    · rw [List.foldl_cons, h1]
      simp [extendStep]
    · rw [List.foldl_cons, h2]
      simp [extendStep]

/-- Indexed characterization of the `extend` fold: the node appended for the
`i`-th source node is its remap, with the fresh set object right at the
matching store index. -/
theorem foldl_extendStep_get (base : Nat) (store : List (List NodeId)) :
    ∀ (l : List BaseNode) (acc : Arena) (i : Nat), i < l.length →
      ((l.foldl (extendStep base store) acc).nodes[acc.nodes.length + i]? =
        some (remapNode base (acc.srcStore.length + i) (l.getD i dummyNode))) ∧
      ((l.foldl (extendStep base store) acc).srcStore[acc.srcStore.length + i]? =
        some (remapSet base (store.getD (l.getD i dummyNode).srcRef []))) := by
  intro l
  induction l with
  | nil => intro acc i hi; simp at hi
  | cons hd tl ih =>
    intro acc i hi
    rw [List.foldl_cons]
    cases i with
    | zero =>
      rcases foldl_extendStep_append base store tl (extendStep base store acc hd)
        with ⟨tn, ts, h1, h2⟩
      constructor
      · rw [h1]
        show ((acc.nodes ++ [remapNode base acc.srcStore.length hd]) ++ tn)[acc.nodes.length + 0]? = _
        rw [Nat.add_zero, List.getElem?_append_left (by simp)]
        rw [List.getElem?_concat_length]
        simp
      · rw [h2]
        show ((acc.srcStore ++ [remapSet base (store.getD hd.srcRef [])]) ++ ts)[acc.srcStore.length + 0]? = _
        rw [Nat.add_zero, List.getElem?_append_left (by simp)]
        rw [List.getElem?_concat_length]
        simp
    | succ j =>
      have hj : j < tl.length := by simpa using Nat.lt_of_succ_lt_succ hi
      have := ih (extendStep base store acc hd) j hj
      constructor
      · have h1 := this.1
        have hlen : (extendStep base store acc hd).nodes.length = acc.nodes.length + 1 := by
          simp [extendStep]
        have hsl : (extendStep base store acc hd).srcStore.length = acc.srcStore.length + 1 := by
          simp [extendStep]
        rw [hlen, hsl] at h1
        have harith : acc.nodes.length + 1 + j = acc.nodes.length + (j + 1) := by omega
        have harith2 : acc.srcStore.length + 1 + j = acc.srcStore.length + (j + 1) := by omega
        rw [harith, harith2] at h1
        simpa using h1
      · have h2 := this.2
        have hsl : (extendStep base store acc hd).srcStore.length = acc.srcStore.length + 1 := by
          simp [extendStep]
        rw [hsl] at h2
        have harith2 : acc.srcStore.length + 1 + j = acc.srcStore.length + (j + 1) := by omega
        rw [harith2] at h2
        simpa using h2

/-- C6: (1) extending an empty arena into a populated one is a no-op; (2) the
populated arena's own nodes are untouched by `extend`; (3) each of `X`'s nodes
reappears at its offset position as the remapped node — id, parent reference
and every child id shifted by `Y`'s prior length — and its fresh provenance-set
object holds exactly the shifted elements of the original node's set. For a
well-formed `X` (node ids equal to their indices, as the Rust constructors
guarantee), position `Y.nodes.length + i` is exactly the remapped id. -/
theorem c6_extend_remaps (Y X : Arena) :
    Y.extend Arena.new = Y ∧
    (Y.extend X).nodes.take Y.nodes.length = Y.nodes ∧
    (∀ i, i < X.nodes.length →
      (Y.extend X).getNode (Y.nodes.length + i) =
        remapNode Y.nodes.length (Y.srcStore.length + i) (X.getNode i) ∧
      (∀ x, x ∈ (Y.extend X).getSrcSet (Y.srcStore.length + i) ↔
        ∃ t ∈ X.srcOf i, x = t + Y.nodes.length)) := by
  refine ⟨rfl, ?_, ?_⟩
  · rcases foldl_extendStep_append Y.nodes.length X.srcStore X.nodes Y with ⟨tn, ts, h1, h2⟩
    unfold Arena.extend
    rw [h1]
    simp
  · intro i hi
    have hg := foldl_extendStep_get Y.nodes.length X.srcStore X.nodes Y i hi
    constructor
    · unfold Arena.extend Arena.getNode
      rw [List.getD_eq_getElem?_getD, hg.1]
      simp
    · intro x
      unfold Arena.extend Arena.getSrcSet
      rw [List.getD_eq_getElem?_getD, hg.2]
      simp only [Option.getD_some]
      rw [mem_remapSet]
      unfold Arena.srcOf Arena.getSrcSet Arena.getNode
      rfl

/-- Concrete arenas for the C6 witness: `Y` holds one node, `X` holds two nodes
with a parent link, a child reference and a provenance entry. -/
def c6wY : Arena :=
  { nodes := [
      { id := 0, parent := none, children := [], node_type := .Virtual, value := none,
        srcRef := 0, name := "<root>", rel_dir := [], start_point := none }],
    library := [("<root>", [0])],
    srcStore := [[]],
    mod_data := [] }

/-- Second concrete arena for the C6 witness. -/
def c6wX : Arena :=
  { nodes := [
      { id := 0, parent := none, children := [("a.txt", 1)], node_type := .Directory,
        value := none, srcRef := 0, name := "common", rel_dir := ["common"],
        start_point := none },
      { id := 1, parent := some 0, children := [], node_type := .File, value := none,
        srcRef := 1, name := "a.txt", rel_dir := ["common", "a.txt"],
        start_point := none }],
    library := [("common", [0]), ("a.txt", [1])],
    srcStore := [[], [0]],
    mod_data := [] }

/-- Witness for C6: instantiating the extend theorem at the concrete arenas,
the second `X` node lands at position 2 as its offset remap, and its remapped
provenance set contains exactly the shifted source 0 + 1. -/
theorem c6_extend_remaps_witness :
    (c6wY.extend c6wX).getNode (c6wY.nodes.length + 1) =
      remapNode c6wY.nodes.length (c6wY.srcStore.length + 1) (c6wX.getNode 1) ∧
    (1 + 1 ∈ (c6wY.extend c6wX).getSrcSet (c6wY.srcStore.length + 1) ↔
      ∃ t ∈ c6wX.srcOf 1, 1 + 1 = t + c6wY.nodes.length) :=
  ⟨((c6_extend_remaps c6wY c6wX).2.2 1 (by decide)).1,
   ((c6_extend_remaps c6wY c6wX).2.2 1 (by decide)).2 (1 + 1)⟩

/-! Lemmas supporting the merge/conflict-engine claims. -/

theorem set_child_some_of_attachOk (a : Arena) (p : NodeId) (k : String)
    (v : NodeId) (b : Bool) (h : attachOk a p v) :
    a.set_child p k v b = some (a.setChildApply p k v b) := by
  unfold Arena.set_child
  exact if_pos h

theorem setChildApply_nodes_length (a : Arena) (p : NodeId) (k : String)
    (v : NodeId) (b : Bool) :
    (a.setChildApply p k v b).nodes.length = a.nodes.length := by
  unfold Arena.setChildApply
  rw [nodes_length_updateNode, nodes_length_setParentCond]
  simp [nodes_setSourceCond]

theorem attachOk_congr (a a' : Arena) (p v : NodeId)
    (hp : (a'.getNode p).node_type = (a.getNode p).node_type)
    (hv : (a'.getNode v).node_type = (a.getNode v).node_type)
    (h : attachOk a p v) : attachOk a' p v := by
  unfold attachOk at h ⊢
  rw [hp, hv]
  exact h

theorem mem_foldl_sinsert (l s : List NodeId) (x : NodeId) :
    x ∈ l.foldl sinsert s ↔ x ∈ s ∨ x ∈ l := by
  induction l generalizing s with
  | nil => simp
  | cons hd tl ih =>
    rw [List.foldl_cons, ih, mem_sinsert]
    constructor
    · rintro ((h | h) | h)
      · exact Or.inl h
      · exact Or.inr (by simp [h])
      · exact Or.inr (by simp [h])
    · rintro (h | h)
      · exact Or.inl (Or.inl h)
      · rcases List.mem_cons.mp h with rfl | h
        · exact Or.inl (Or.inr rfl)
        · exact Or.inr h

theorem lookupC_imInsert_self (m : List (String × NodeId)) (k : String) (v : NodeId) :
    lookupC (imInsert m k v) k = some v := by
  unfold imInsert
  by_cases hany : m.any (fun p => p.1 == k) = true
  · rw [if_pos hany]
    induction m with
    | nil => simp at hany
    | cons hd tl ih =>
      rw [List.map_cons]
      by_cases hh : hd.1 = k
      · rw [if_pos hh]
        simp [lookupC]
      · rw [if_neg hh]
        simp only [lookupC]
        rw [if_neg hh]
        exact ih (by simpa [List.any_cons, hh] using hany)
  · rw [if_neg hany]
    induction m with
    | nil => simp [lookupC]
    | cons hd tl ih =>
      have hh : ¬ hd.1 = k := by
        intro hcontr
        exact hany (by simp [List.any_cons, hcontr])
      rw [List.cons_append]
      simp only [lookupC]
      rw [if_neg hh]
      exact ih (by
        intro hcontr
        exact hany (by simp [List.any_cons, Bool.or_eq_true]; exact Or.inr (by simpa using hcontr)))

theorem lookupC_imInsert_ne (m : List (String × NodeId)) (k k' : String) (v : NodeId)
    (h : k' ≠ k) : lookupC (imInsert m k v) k' = lookupC m k' := by
  unfold imInsert
  by_cases hany : m.any (fun p => p.1 == k) = true
  · rw [if_pos hany]
    induction m with
    | nil => simp
    | cons hd tl ih =>
      rw [List.map_cons]
      by_cases hh : hd.1 = k
      · rw [if_pos hh]
        simp only [lookupC]
        rw [if_neg (by simpa using h.symm), if_neg (by rw [hh]; exact fun hc => h hc.symm)]
        by_cases hany' : tl.any (fun p => p.1 == k) = true
        · exact ih hany'
        · -- no further occurrence of k in tl: map is the identity there
          clear ih
          induction tl with
          | nil => simp
          | cons hd2 tl2 ih2 =>
            have hh2 : ¬ hd2.1 = k := by
              intro hc
              exact hany' (by simp [List.any_cons, hc])
            rw [List.map_cons, if_neg hh2]
            simp only [lookupC]
            by_cases hk2 : hd2.1 = k'
            · rw [if_pos hk2, if_pos hk2]
            · rw [if_neg hk2, if_neg hk2]
              exact ih2 (by simpa [List.any_cons, hh2] using hany)
                (fun hc => hany' (by simpa [List.any_cons, hh2] using hc))
      · rw [if_neg hh]
        simp only [lookupC]
        by_cases hk1 : hd.1 = k'
        · rw [if_pos hk1, if_pos hk1]
        · rw [if_neg hk1, if_neg hk1]
          exact ih (by simpa [List.any_cons, hh] using hany)
  · rw [if_neg hany]
    induction m with
    | nil =>
      simp only [List.nil_append, lookupC]
      rw [if_neg (fun hc => h hc.symm)]
    | cons hd tl ih =>
      rw [List.cons_append]
      simp only [lookupC]
      by_cases hk1 : hd.1 = k'
      · rw [if_pos hk1, if_pos hk1]
      · rw [if_neg hk1, if_neg hk1]
        exact ih (fun hc => hany (by simp [List.any_cons, Bool.or_eq_true]; exact Or.inr (by simpa using hc)))

theorem lookupC_self_of_nodup (m : List (String × NodeId)) (k : String) (v : NodeId)
    (hnd : (m.map Prod.fst).Nodup) (hmem : (k, v) ∈ m) :
    lookupC m k = some v := by
  induction m with
  | nil => cases hmem
  | cons hd tl ih =>
    rcases List.mem_cons.mp hmem with rfl | hmem'
    · simp [lookupC]
    · simp only [lookupC]
      have hh : ¬ hd.1 = k := by
        intro hc
        have : k ∈ tl.map Prod.fst := List.mem_map.mpr ⟨(k, v), hmem', rfl⟩
        rw [List.map_cons, List.nodup_cons] at hnd
        exact hnd.1 (hc ▸ this)
      rw [if_neg hh]
      exact ih (by rw [List.map_cons, List.nodup_cons] at hnd; exact hnd.2) hmem'

theorem keys_imInsert_mem (m : List (String × NodeId)) (k : String) (v : NodeId) :
    ((imInsert m k v).map Prod.fst) = if m.any (fun p => p.1 == k) = true
      then m.map Prod.fst else m.map Prod.fst ++ [k] := by
  unfold imInsert
  split
  · rw [List.map_map]
    have : (Prod.fst ∘ fun p : String × NodeId => if p.1 = k then (k, v) else p) =
        Prod.fst := by
      funext p
      by_cases hh : p.1 = k
      · simp [hh]
      · simp [hh]
    rw [this]
  · simp

theorem keys_imInsert_nodup (m : List (String × NodeId)) (k : String) (v : NodeId)
    (hnd : (m.map Prod.fst).Nodup) : ((imInsert m k v).map Prod.fst).Nodup := by
  rw [keys_imInsert_mem]
  split
  · exact hnd
  · rename_i hany
    rw [List.nodup_append]
    refine ⟨hnd, List.nodup_singleton k, ?_⟩
    intro x hx
    simp only [List.mem_singleton]
    intro hc
    subst hc
    rcases List.mem_map.mp hx with ⟨p, hp, hpk⟩
    exact hany (List.any_eq_true.mpr ⟨p, hp, by simp [hpk]⟩)

/-- Frame lemmas for `setNodeSrcRef`: it changes only the one node's
provenance reference. -/
theorem children_setNodeSrcRef (a : Arena) (i : NodeId) (r : Nat) (j : NodeId) :
    ((a.setNodeSrcRef i r).getNode j).children = (a.getNode j).children := by
  unfold Arena.setNodeSrcRef
  exact field_updateNode a i j (fun n => { n with srcRef := r })
    (fun n => n.children) (fun n => rfl)

theorem node_type_setNodeSrcRef (a : Arena) (i : NodeId) (r : Nat) (j : NodeId) :
    ((a.setNodeSrcRef i r).getNode j).node_type = (a.getNode j).node_type := by
  unfold Arena.setNodeSrcRef
  exact field_updateNode a i j (fun n => { n with srcRef := r })
    (fun n => n.node_type) (fun n => rfl)

theorem rel_dir_setNodeSrcRef (a : Arena) (i : NodeId) (r : Nat) (j : NodeId) :
    ((a.setNodeSrcRef i r).getNode j).rel_dir = (a.getNode j).rel_dir := by
  unfold Arena.setNodeSrcRef
  exact field_updateNode a i j (fun n => { n with srcRef := r })
    (fun n => n.rel_dir) (fun n => rfl)

theorem srcRef_setNodeSrcRef_self (a : Arena) (i : NodeId) (r : Nat)
    (h : i < a.nodes.length) : ((a.setNodeSrcRef i r).getNode i).srcRef = r := by
  unfold Arena.setNodeSrcRef
  rw [getNode_updateNode_self a i _ h]

theorem srcRef_setNodeSrcRef_ne (a : Arena) (i : NodeId) (r : Nat) (j : NodeId)
    (h : i ≠ j) : ((a.setNodeSrcRef i r).getNode j).srcRef = (a.getNode j).srcRef := by
  unfold Arena.setNodeSrcRef
  rw [getNode_updateNode_ne a i j _ h]

theorem nodes_length_setNodeSrcRef (a : Arena) (i : NodeId) (r : Nat) :
    (a.setNodeSrcRef i r).nodes.length = a.nodes.length := by
  unfold Arena.setNodeSrcRef
  exact nodes_length_updateNode a i _

theorem getSrcSet_setNodeSrcRef (a : Arena) (i : NodeId) (r : Nat) (r' : Nat) :
    (a.setNodeSrcRef i r).getSrcSet r' = a.getSrcSet r' := by
  unfold Arena.setNodeSrcRef
  exact getSrcSet_updateNode a i _ r'

/-- Structural anatomy of a successful `uwccStep`: the result is `set_child`
applied to an intermediate arena whose children, node types, relative
directories and node count agree with the input's, and the conflict list
either stays or gains one path. -/
theorem uwccStep_anatomy (selfId : NodeId) (a : Arena) (c : List FsPath)
    (k : String) (v : NodeId) (a1 : Arena) (c1 : List FsPath)
    (h : uwccStep selfId (a, c) (k, v) = some (a1, c1)) :
    ∃ amid : Arena,
      a1 = amid.setChildApply selfId k v true ∧
      attachOk amid selfId v ∧
      amid.nodes.length = a.nodes.length ∧
      (∀ j, (amid.getNode j).children = (a.getNode j).children) ∧
      (∀ j, (amid.getNode j).node_type = (a.getNode j).node_type) ∧
      (∀ j, (amid.getNode j).rel_dir = (a.getNode j).rel_dir) ∧
      (c1 = c ∨ ∃ p, c1 = c ++ [p]) ∧
      (∀ p, p ∈ c → p ∈ c1) := by
  simp only [uwccStep] at h
  split at h
  · exact absurd h (by simp)
  · rename_i st1 heq
    split at h
    · rename_i a2 heq2
      simp only [Option.some.injEq, Prod.mk.injEq] at h
      obtain ⟨ha1, hc1⟩ := h
      subst ha1
      subst hc1
      refine ⟨st1.1, set_child_eq_some _ _ _ _ _ _ heq2,
        (set_child_isSome_iff st1.1 selfId k v true).mp (by simp [heq2]), ?_⟩
      split at heq
      · simp only [Option.some.injEq] at heq
        subst heq
        exact ⟨rfl, fun j => rfl, fun j => rfl, fun j => rfl, Or.inl rfl, fun p hp => hp⟩
      · rename_i exist_id hlook
        split at heq
        · split at heq
          · split at heq
            · split at heq
              · simp only [Option.some.injEq] at heq
                subst heq
                refine ⟨?_, ?_, ?_, ?_, ?_, ?_⟩
                · simp [Arena.setNodeSrcRef, nodes_length_updateNode, nodes_setSrcSet]
                · intro j
                  dsimp only
                  rw [children_setNodeSrcRef, getNode_setSrcSet]
                · intro j
                  dsimp only
                  rw [node_type_setNodeSrcRef, getNode_setSrcSet]
                · intro j
                  dsimp only
                  rw [rel_dir_setNodeSrcRef, getNode_setSrcSet]
                · by_cases hmem : ((a.getNode selfId).rel_dir ++ [k]) ∈ c
                  · exact Or.inl (by simp [hmem])
                  · exact Or.inr ⟨(a.getNode selfId).rel_dir ++ [k], by simp [hmem]⟩
                · intro p hp
                  by_cases hmem : ((a.getNode selfId).rel_dir ++ [k]) ∈ c
                  · simpa [hmem] using hp
                  · simp only [if_neg hmem]
                    exact List.mem_append_left _ hp
              · exact absurd heq (by simp)
            · simp only [Option.some.injEq] at heq
              subst heq
              exact ⟨rfl, fun j => rfl, fun j => rfl, fun j => rfl, Or.inl rfl, fun p hp => hp⟩
          · simp only [Option.some.injEq] at heq
            subst heq
            exact ⟨rfl, fun j => rfl, fun j => rfl, fun j => rfl, Or.inl rfl, fun p hp => hp⟩
        · simp only [Option.some.injEq] at heq
          subst heq
          exact ⟨rfl, fun j => rfl, fun j => rfl, fun j => rfl, Or.inl rfl, fun p hp => hp⟩
    · exact absurd h (by simp)

theorem uwccStep_nodes_length (selfId : NodeId) (a : Arena) (c : List FsPath)
    (k : String) (v : NodeId) (a1 : Arena) (c1 : List FsPath)
    (h : uwccStep selfId (a, c) (k, v) = some (a1, c1)) :
    a1.nodes.length = a.nodes.length := by
  obtain ⟨amid, ha1, _, hlen, _, _, _, _, _⟩ := uwccStep_anatomy selfId a c k v a1 c1 h
  rw [ha1, setChildApply_nodes_length, hlen]

theorem uwccStep_node_type (selfId : NodeId) (a : Arena) (c : List FsPath)
    (k : String) (v : NodeId) (a1 : Arena) (c1 : List FsPath)
    (h : uwccStep selfId (a, c) (k, v) = some (a1, c1)) (j : NodeId) :
    (a1.getNode j).node_type = (a.getNode j).node_type := by
  obtain ⟨amid, ha1, _, _, _, hty, _, _, _⟩ := uwccStep_anatomy selfId a c k v a1 c1 h
  rw [ha1, node_type_setChildApply, hty]

theorem uwccStep_children_self (selfId : NodeId) (a : Arena) (c : List FsPath)
    (k : String) (v : NodeId) (a1 : Arena) (c1 : List FsPath)
    (h : uwccStep selfId (a, c) (k, v) = some (a1, c1)) (hself : selfId < a.nodes.length) :
    (a1.getNode selfId).children = imInsert (a.getNode selfId).children k v := by
  obtain ⟨amid, ha1, _, hlen, hch, _, _, _, _⟩ := uwccStep_anatomy selfId a c k v a1 c1 h
  rw [ha1, children_setChildApply_self _ _ _ _ _ (by rw [hlen]; exact hself), hch]

theorem uwccStep_children_ne (selfId : NodeId) (a : Arena) (c : List FsPath)
    (k : String) (v : NodeId) (a1 : Arena) (c1 : List FsPath)
    (h : uwccStep selfId (a, c) (k, v) = some (a1, c1)) (q : NodeId) (hq : q ≠ selfId) :
    (a1.getNode q).children = (a.getNode q).children := by
  obtain ⟨amid, ha1, _, _, hch, _, _, _, _⟩ := uwccStep_anatomy selfId a c k v a1 c1 h
  rw [ha1, children_setChildApply_ne _ _ _ _ _ _ hq, hch]

theorem uwccStep_rel_dir (selfId : NodeId) (a : Arena) (c : List FsPath)
    (k : String) (v : NodeId) (a1 : Arena) (c1 : List FsPath)
    (h : uwccStep selfId (a, c) (k, v) = some (a1, c1)) (j : NodeId) :
    (a1.getNode j).rel_dir = (a.getNode j).rel_dir := by
  obtain ⟨amid, ha1, _, _, _, _, hrd, _, _⟩ := uwccStep_anatomy selfId a c k v a1 c1 h
  rw [ha1, rel_dir_setChildApply, hrd]

theorem uwccStep_conflicts_mono (selfId : NodeId) (a : Arena) (c : List FsPath)
    (k : String) (v : NodeId) (a1 : Arena) (c1 : List FsPath)
    (h : uwccStep selfId (a, c) (k, v) = some (a1, c1)) (p : FsPath) (hp : p ∈ c) :
    p ∈ c1 := by
  obtain ⟨amid, _, _, _, _, _, _, _, hmono⟩ := uwccStep_anatomy selfId a c k v a1 c1 h
  exact hmono p hp

theorem uwccStep_attachOk (selfId : NodeId) (a : Arena) (c : List FsPath)
    (k : String) (v : NodeId) (a1 : Arena) (c1 : List FsPath)
    (h : uwccStep selfId (a, c) (k, v) = some (a1, c1)) :
    attachOk a selfId v := by
  obtain ⟨amid, _, hok, _, _, hty, _, _, _⟩ := uwccStep_anatomy selfId a c k v a1 c1 h
  exact attachOk_congr amid a selfId v (hty selfId).symm (hty v).symm hok

theorem uwccFold_nodes_length (selfId : NodeId) :
    ∀ (l : List (String × NodeId)) (a : Arena) (c : List FsPath) (a' : Arena)
      (c' : List FsPath), uwccFold selfId (a, c) l = some (a', c') →
      a'.nodes.length = a.nodes.length := by
  intro l
  induction l with
  | nil =>
    intro a c a' c' h
    simp only [uwccFold, Option.some.injEq, Prod.mk.injEq] at h
    rw [h.1]
  | cons kv tl ih =>
    intro a c a' c' h
    simp only [uwccFold] at h
    split at h
    · rename_i st1 hstep
      rw [ih st1.1 st1.2 a' c' (by simpa using h)]
      exact uwccStep_nodes_length selfId a c kv.1 kv.2 st1.1 st1.2 (by simpa using hstep)
    · exact absurd h (by simp)

theorem uwccFold_node_type (selfId : NodeId) :
    ∀ (l : List (String × NodeId)) (a : Arena) (c : List FsPath) (a' : Arena)
      (c' : List FsPath), uwccFold selfId (a, c) l = some (a', c') →
      ∀ j, (a'.getNode j).node_type = (a.getNode j).node_type := by
  intro l
  induction l with
  | nil =>
    intro a c a' c' h j
    simp only [uwccFold, Option.some.injEq, Prod.mk.injEq] at h
    rw [h.1]
  | cons kv tl ih =>
    intro a c a' c' h j
    simp only [uwccFold] at h
    split at h
    · rename_i st1 hstep
      rw [ih st1.1 st1.2 a' c' (by simpa using h) j]
      exact uwccStep_node_type selfId a c kv.1 kv.2 st1.1 st1.2 (by simpa using hstep) j
    · exact absurd h (by simp)

theorem uwccFold_children_ne (selfId : NodeId) :
    ∀ (l : List (String × NodeId)) (a : Arena) (c : List FsPath) (a' : Arena)
      (c' : List FsPath), uwccFold selfId (a, c) l = some (a', c') →
      ∀ q, q ≠ selfId → (a'.getNode q).children = (a.getNode q).children := by
  intro l
  induction l with
  | nil =>
    intro a c a' c' h q hq
    simp only [uwccFold, Option.some.injEq, Prod.mk.injEq] at h
    rw [h.1]
  | cons kv tl ih =>
    intro a c a' c' h q hq
    simp only [uwccFold] at h
    split at h
    · rename_i st1 hstep
      rw [ih st1.1 st1.2 a' c' (by simpa using h) q hq]
      exact uwccStep_children_ne selfId a c kv.1 kv.2 st1.1 st1.2 (by simpa using hstep) q hq
    · exact absurd h (by simp)

theorem uwccFold_conflicts_mono (selfId : NodeId) :
    ∀ (l : List (String × NodeId)) (a : Arena) (c : List FsPath) (a' : Arena)
      (c' : List FsPath), uwccFold selfId (a, c) l = some (a', c') →
      ∀ p, p ∈ c → p ∈ c' := by
  intro l
  induction l with
  | nil =>
    intro a c a' c' h p hp
    simp only [uwccFold, Option.some.injEq, Prod.mk.injEq] at h
    rw [← h.2]
    exact hp
  | cons kv tl ih =>
    intro a c a' c' h p hp
    simp only [uwccFold] at h
    split at h
    · rename_i st1 hstep
      exact ih st1.1 st1.2 a' c' (by simpa using h) p
        (uwccStep_conflicts_mono selfId a c kv.1 kv.2 st1.1 st1.2 (by simpa using hstep) p hp)
    · exact absurd h (by simp)

theorem uwccFold_append (selfId : NodeId) :
    ∀ (l1 l2 : List (String × NodeId)) (st : Arena × List FsPath),
      uwccFold selfId st (l1 ++ l2) =
        (uwccFold selfId st l1).bind (fun mid => uwccFold selfId mid l2) := by
  intro l1
  induction l1 with
  | nil => intro l2 st; simp [uwccFold]
  | cons kv tl ih =>
    intro l2 st
    rw [List.cons_append]
    simp only [uwccFold]
    cases hstep : uwccStep selfId st kv with
    | none => simp
    | some st1 => simpa using ih l2 st1

theorem uwccFold_attachOk (selfId : NodeId) :
    ∀ (l : List (String × NodeId)) (a : Arena) (c : List FsPath) (a' : Arena)
      (c' : List FsPath), uwccFold selfId (a, c) l = some (a', c') →
      ∀ kv ∈ l, attachOk a selfId kv.2 := by
  intro l
  induction l with
  | nil => intro a c a' c' h kv hkv; cases hkv
  | cons kv0 tl ih =>
    intro a c a' c' h kv hkv
    simp only [uwccFold] at h
    split at h
    · rename_i st1 hstep
      rcases List.mem_cons.mp hkv with rfl | hkv'
      · exact uwccStep_attachOk selfId a c kv.1 kv.2 st1.1 st1.2 (by simpa using hstep)
      · have hmid := ih st1.1 st1.2 a' c' (by simpa using h) kv hkv'
        have hty := fun j => uwccStep_node_type selfId a c kv0.1 kv0.2 st1.1 st1.2
          (by simpa using hstep) j
        exact attachOk_congr st1.1 a selfId kv.2 (hty selfId).symm (hty kv.2).symm hmid
    · exact absurd h (by simp)

theorem uwccFold_children_self_foldl (selfId : NodeId) :
    ∀ (l : List (String × NodeId)) (a : Arena) (c : List FsPath) (a' : Arena)
      (c' : List FsPath), uwccFold selfId (a, c) l = some (a', c') →
      selfId < a.nodes.length →
      (a'.getNode selfId).children =
        l.foldl (fun m kv => imInsert m kv.1 kv.2) (a.getNode selfId).children := by
  intro l
  induction l with
  | nil =>
    intro a c a' c' h hself
    simp only [uwccFold, Option.some.injEq, Prod.mk.injEq] at h
    rw [h.1]
    rfl
  | cons kv tl ih =>
    intro a c a' c' h hself
    simp only [uwccFold] at h
    split at h
    · rename_i st1 hstep
      have hlen := uwccStep_nodes_length selfId a c kv.1 kv.2 st1.1 st1.2 (by simpa using hstep)
      have hch := uwccStep_children_self selfId a c kv.1 kv.2 st1.1 st1.2
        (by simpa using hstep) hself
      rw [List.foldl_cons]
      rw [ih st1.1 st1.2 a' c' (by simpa using h) (by rw [hlen]; exact hself), hch]
    · exact absurd h (by simp)

theorem uwccFold_lookup_preserved (selfId : NodeId) :
    ∀ (l : List (String × NodeId)) (a : Arena) (c : List FsPath) (a' : Arena)
      (c' : List FsPath), uwccFold selfId (a, c) l = some (a', c') →
      selfId < a.nodes.length →
      ∀ key, (∀ kv ∈ l, kv.1 ≠ key) →
      lookupC (a'.getNode selfId).children key =
        lookupC (a.getNode selfId).children key := by
  intro l
  induction l with
  | nil =>
    intro a c a' c' h hself key hkeys
    simp only [uwccFold, Option.some.injEq, Prod.mk.injEq] at h
    rw [h.1]
  | cons kv0 tl ih =>
    intro a c a' c' h hself key hkeys
    simp only [uwccFold] at h
    split at h
    · rename_i st1 hstep
      have hlen := uwccStep_nodes_length selfId a c kv0.1 kv0.2 st1.1 st1.2
        (by simpa using hstep)
      have hch := uwccStep_children_self selfId a c kv0.1 kv0.2 st1.1 st1.2
        (by simpa using hstep) hself
      rw [ih st1.1 st1.2 a' c' (by simpa using h) (by rw [hlen]; exact hself) key
        (fun kv hkv => hkeys kv (List.mem_cons_of_mem _ hkv))]
      rw [hch, lookupC_imInsert_ne _ _ _ _
        (fun hc => hkeys kv0 (List.mem_cons_self _ _) hc.symm)]
    · exact absurd h (by simp)

theorem uwccFold_last_wins (selfId : NodeId) :
    ∀ (l : List (String × NodeId)) (a : Arena) (c : List FsPath) (a' : Arena)
      (c' : List FsPath), uwccFold selfId (a, c) l = some (a', c') →
      selfId < a.nodes.length → (l.map Prod.fst).Nodup →
      ∀ kv ∈ l, lookupC (a'.getNode selfId).children kv.1 = some kv.2 := by
  intro l
  induction l with
  | nil => intro a c a' c' h hself hnd kv hkv; cases hkv
  | cons kv0 tl ih =>
    intro a c a' c' h hself hnd kv hkv
    simp only [uwccFold] at h
    split at h
    · rename_i st1 hstep
      have hlen := uwccStep_nodes_length selfId a c kv0.1 kv0.2 st1.1 st1.2
        (by simpa using hstep)
      rcases List.mem_cons.mp hkv with rfl | hkv'
      · -- kv is processed now; its key is untouched by the remaining steps
        have hch := uwccStep_children_self selfId a c kv.1 kv.2 st1.1 st1.2
          (by simpa using hstep) hself
        have hrest : ∀ kv' ∈ tl, kv'.1 ≠ kv.1 := by
          intro kv' hkv' hc
          rw [List.map_cons, List.nodup_cons] at hnd
          exact hnd.1 (hc ▸ List.mem_map.mpr ⟨kv', hkv', rfl⟩)
        -- after the remaining fold, the lookup at kv.1 is unchanged
        have hpres := uwccFold_lookup_preserved selfId tl st1.1 st1.2 a' c'
          (by simpa using h) (by rw [hlen]; exact hself) kv.1
          (fun kv' hkv' => hrest kv' hkv')
        rw [hpres, hch, lookupC_imInsert_self]
      · rw [List.map_cons, List.nodup_cons] at hnd
        exact ih st1.1 st1.2 a' c' (by simpa using h) (by rw [hlen]; exact hself) hnd.2 kv hkv'
    · exact absurd h (by simp)

theorem nodup_keys_unique (m : List (String × NodeId))
    (hnd : (m.map Prod.fst).Nodup) (k : String) (v1 v2 : NodeId)
    (h1 : (k, v1) ∈ m) (h2 : (k, v2) ∈ m) : v1 = v2 := by
  induction m with
  | nil => cases h1
  | cons hd tl ih =>
    rw [List.map_cons, List.nodup_cons] at hnd
    rcases List.mem_cons.mp h1 with heq1 | h1'
    · rcases List.mem_cons.mp h2 with heq2 | h2'
      · rw [← heq1] at heq2
        exact ((Prod.mk.injEq _ _ _ _ ▸ heq2).2).symm
      · exfalso
        exact hnd.1 (by
          rw [← heq1]
          exact List.mem_map.mpr ⟨(k, v2), h2', rfl⟩)
    · rcases List.mem_cons.mp h2 with heq2 | h2'
      · exfalso
        exact hnd.1 (by
          rw [← heq2]
          exact List.mem_map.mpr ⟨(k, v1), h1', rfl⟩)
      · exact ih hnd.2 h1' h2'

theorem imInsert_mem_self (m : List (String × NodeId)) (k : String) (v : NodeId)
    (hnd : (m.map Prod.fst).Nodup) (hmem : (k, v) ∈ m) : imInsert m k v = m := by
  unfold imInsert
  rw [if_pos (List.any_eq_true.mpr ⟨(k, v), hmem, by simp⟩)]
  have hid : ∀ p ∈ m, (if p.1 = k then (k, v) else p) = p := by
    intro p hp
    by_cases hpk : p.1 = k
    · rw [if_pos hpk]
      obtain ⟨p1, p2⟩ := p
      simp only at hpk
      subst hpk
      rw [nodup_keys_unique m hnd p1 v p2 hmem hp]
    · rw [if_neg hpk]
  rw [List.map_congr_left hid]
  simp

theorem foldl_imInsert_self (m : List (String × NodeId))
    (hnd : (m.map Prod.fst).Nodup) :
    ∀ l : List (String × NodeId), (∀ kv ∈ l, kv ∈ m) →
      l.foldl (fun acc kv => imInsert acc kv.1 kv.2) m = m := by
  intro l
  induction l with
  | nil => intro _; rfl
  | cons kv tl ih =>
    intro hsub
    rw [List.foldl_cons,
      imInsert_mem_self m kv.1 kv.2 hnd (by simpa using hsub kv (List.mem_cons_self _ _))]
    exact ih (fun kv' h' => hsub kv' (List.mem_cons_of_mem _ h'))

/-! Claim C2: last write wins. -/

/-- C2: after a completed `update_with_conflict_check(self, other)`, for every
(key, incoming id) among `other`'s children, `self`'s children map at that key
holds the incoming NodeId — whatever is merged in last wins, whether or not a
conflict was recorded for the key. -/
theorem c2_last_wins (a : Arena) (selfId otherId : NodeId) (a' : Arena)
    (c' : List FsPath) (hself : selfId < a.nodes.length)
    (hnd : (((a.getNode otherId).children).map Prod.fst).Nodup)
    (h : a.update_with_conflict_check selfId otherId = some (a', c'))
    (key : String) (oid : NodeId)
    (hmem : (key, oid) ∈ (a.getNode otherId).children) :
    lookupC (a'.getNode selfId).children key = some oid := by
  unfold Arena.update_with_conflict_check at h
  exact uwccFold_last_wins selfId (a.getNode otherId).children a [] a' c' h hself hnd
    (key, oid) hmem

/-- Concrete merge scenario: a Virtual container with an existing child "x"
(provenance set object 1, contents [10]) merged with another container whose
incoming child "x" has a distinct set object (3, contents [11]). -/
def uwccDemoArena : Arena :=
  { nodes := [
      { id := 0, parent := none, children := [("x", 1)], node_type := .Virtual,
        value := none, srcRef := 0, name := "<def>", rel_dir := ["common"],
        start_point := none },
      { id := 1, parent := none, children := [], node_type := .Value,
        value := some "old", srcRef := 1, name := "x",
        rel_dir := ["common", "a.txt"], start_point := none },
      { id := 2, parent := none, children := [("x", 3)], node_type := .Virtual,
        value := none, srcRef := 2, name := "<o>", rel_dir := ["common", "b.txt"],
        start_point := none },
      { id := 3, parent := none, children := [], node_type := .Value,
        value := some "new", srcRef := 3, name := "x",
        rel_dir := ["common", "b.txt"], start_point := none }],
    library := [],
    srcStore := [[], [10], [], [11]],
    mod_data := [] }

/-- The computed result of merging node 2 into node 0 of the demo arena. -/
def uwccDemoRes : Arena × List FsPath :=
  (uwccDemoArena.update_with_conflict_check 0 2).getD (Arena.new, [])

/-- Witness for C2: in the concrete conflicting merge, the incoming child id 3
ends up live at key "x". -/
theorem c2_last_wins_witness :
    lookupC ((uwccDemoRes.1).getNode 0).children "x" = some 3 :=
  c2_last_wins uwccDemoArena 0 2 uwccDemoRes.1 uwccDemoRes.2 (by decide) (by decide)
    (by decide) "x" 3 (by decide)

/-! Claim C3: repeating a merge reports no new conflicts. -/

/-- When every incoming (key, id) pair is already exactly what `self` holds at
that key, the whole merge loop succeeds and reports no conflicts at all. -/
theorem uwccFold_no_new_conflicts (selfId : NodeId) :
    ∀ (l : List (String × NodeId)) (a : Arena) (c : List FsPath),
      selfId < a.nodes.length → (l.map Prod.fst).Nodup →
      (∀ kv ∈ l, lookupC (a.getNode selfId).children kv.1 = some kv.2) →
      (∀ kv ∈ l, attachOk a selfId kv.2) →
      ∃ a2, uwccFold selfId (a, c) l = some (a2, c) := by
  intro l
  induction l with
  | nil => exact fun a c _ _ _ _ => ⟨a, rfl⟩
  | cons kv tl ih =>
    intro a c hself hnd hlook hok
    have hl := hlook kv (List.mem_cons_self _ _)
    have hok' := hok kv (List.mem_cons_self _ _)
    have hstep : uwccStep selfId (a, c) (kv.1, kv.2) =
        some (a.setChildApply selfId kv.1 kv.2 true, c) := by
      simp only [uwccStep, hl]
      rw [if_neg (show ¬ kv.2 ≠ kv.2 by simp)]
      simp only [set_child_some_of_attachOk a selfId kv.1 kv.2 true hok']
    have hself1 : selfId < (a.setChildApply selfId kv.1 kv.2 true).nodes.length := by
      rw [setChildApply_nodes_length]
      exact hself
    have hch := children_setChildApply_self a selfId kv.1 kv.2 true hself
    have hlook1 : ∀ kv' ∈ tl,
        lookupC ((a.setChildApply selfId kv.1 kv.2 true).getNode selfId).children kv'.1 =
          some kv'.2 := by
      intro kv' hkv'
      have hne : kv'.1 ≠ kv.1 := by
        intro hc
        rw [List.map_cons, List.nodup_cons] at hnd
        exact hnd.1 (hc ▸ List.mem_map.mpr ⟨kv', hkv', rfl⟩)
      rw [hch, lookupC_imInsert_ne _ _ _ _ hne]
      exact hlook kv' (List.mem_cons_of_mem _ hkv')
    have hok1 : ∀ kv' ∈ tl, attachOk (a.setChildApply selfId kv.1 kv.2 true) selfId kv'.2 := by
      intro kv' hkv'
      exact attachOk_congr a _ selfId kv'.2
        (node_type_setChildApply a selfId kv.1 kv.2 true selfId)
        (node_type_setChildApply a selfId kv.1 kv.2 true kv'.2)
        (hok kv' (List.mem_cons_of_mem _ hkv'))
    obtain ⟨a2, h2⟩ := ih (a.setChildApply selfId kv.1 kv.2 true) c hself1
      (by rw [List.map_cons, List.nodup_cons] at hnd; exact hnd.2) hlook1 hok1
    refine ⟨a2, ?_⟩
    simp only [uwccFold]
    rw [show (kv.1, kv.2) = kv from rfl] at hstep
    rw [hstep]
    exact h2

/-- C3: if `update_with_conflict_check(self, other)` has completed once, running
it again with the same arguments completes and returns an empty conflict set. -/
theorem c3_repeat_merge_no_conflicts (a : Arena) (selfId otherId : NodeId)
    (a1 : Arena) (c1 : List FsPath) (hself : selfId < a.nodes.length)
    (hnd : (((a.getNode otherId).children).map Prod.fst).Nodup)
    (h : a.update_with_conflict_check selfId otherId = some (a1, c1)) :
    ∃ a2, a1.update_with_conflict_check selfId otherId = some (a2, []) := by
  unfold Arena.update_with_conflict_check at h ⊢
  have hlen := uwccFold_nodes_length selfId (a.getNode otherId).children a [] a1 c1 h
  have hself1 : selfId < a1.nodes.length := by rw [hlen]; exact hself
  have hok1 : ∀ kv ∈ (a.getNode otherId).children, attachOk a1 selfId kv.2 := by
    intro kv hkv
    have h0 := uwccFold_attachOk selfId (a.getNode otherId).children a [] a1 c1 h kv hkv
    have hty := uwccFold_node_type selfId (a.getNode otherId).children a [] a1 c1 h
    exact attachOk_congr a a1 selfId kv.2 (hty selfId) (hty kv.2) h0
  by_cases heq : otherId = selfId
  · subst heq
    have hch : (a1.getNode otherId).children = (a.getNode otherId).children := by
      rw [uwccFold_children_self_foldl otherId (a.getNode otherId).children a [] a1 c1 h
        hself]
      exact foldl_imInsert_self (a.getNode otherId).children hnd
        (a.getNode otherId).children (fun kv hkv => hkv)
    rw [hch]
    exact uwccFold_no_new_conflicts otherId (a.getNode otherId).children a1 [] hself1 hnd
      (fun kv hkv => by rw [hch]; exact lookupC_self_of_nodup _ kv.1 kv.2 hnd hkv) hok1
  · have hch : (a1.getNode otherId).children = (a.getNode otherId).children :=
      uwccFold_children_ne selfId (a.getNode otherId).children a [] a1 c1 h otherId heq
    have hlook := uwccFold_last_wins selfId (a.getNode otherId).children a [] a1 c1 h
      hself hnd
    rw [hch]
    exact uwccFold_no_new_conflicts selfId (a.getNode otherId).children a1 [] hself1 hnd
      (fun kv hkv => hlook kv hkv) hok1

/-- Witness for C3: repeating the concrete demo merge reports no conflict paths. -/
theorem c3_repeat_merge_no_conflicts_witness :
    ((uwccDemoRes.1).update_with_conflict_check 0 2).map Prod.snd = some [] := by
  obtain ⟨a2, h2⟩ := c3_repeat_merge_no_conflicts uwccDemoArena 0 2 uwccDemoRes.1
    uwccDemoRes.2 (by decide) (by decide) (by decide)
  rw [h2]
  rfl

/-! Claim C1: conflict detection, set unioning and object sharing. -/

/-- C1: in a completed `update_with_conflict_check(self, other)`, consider the
`i`-th incoming pair (key, oid), processed at intermediate state `ai` with the
conflicts gathered so far `ci`, and suppose `self` holds a different id at that
key. Part 1 (claim's final sentence): if the two children share the identical
provenance-set object (equal `srcRef`), nothing further is recorded for the
key — the step completes with conflicts still `ci`. Part 2: if the objects are
distinct, their contents differ by value, and the key is not on the
allow-list, then `self.rel_dir ++ [key]` is in the call's returned conflict
set, it is recorded at this step, and afterwards both children reference the
single surviving set object (the existing child's), whose contents are the
union of the two sets (plus possibly `selfId` itself, added by the routine
provenance marking of the final `set_child`). -/
theorem c1_conflict_union_sharing (a : Arena) (selfId otherId : NodeId)
    (res : Arena × List FsPath)
    (h : a.update_with_conflict_check selfId otherId = some res)
    (i : Nat) (key : String) (oid : NodeId)
    (hi : i < (a.getNode otherId).children.length)
    (hkv : (a.getNode otherId).children.getD i ("", 0) = (key, oid))
    (ai : Arena) (ci : List FsPath)
    (hpart : uwccFold selfId (a, []) ((a.getNode otherId).children.take i) =
      some (ai, ci))
    (exist_id : NodeId)
    (hex : lookupC (ai.getNode selfId).children key = some exist_id)
    (hne : exist_id ≠ oid)
    (hoid : oid < ai.nodes.length)
    (hexr : (ai.getNode exist_id).srcRef < ai.srcStore.length) :
    (((ai.getNode exist_id).srcRef = (ai.getNode oid).srcRef) →
      ∃ ai1, uwccFold selfId (a, []) ((a.getNode otherId).children.take (i + 1)) =
        some (ai1, ci)) ∧
    (((ai.getNode exist_id).srcRef ≠ (ai.getNode oid).srcRef) →
     indexSetEq (ai.getSrcSet (ai.getNode exist_id).srcRef)
       (ai.getSrcSet (ai.getNode oid).srcRef) = false →
     key ∉ NON_CONFLICTING_KEYWORDS →
      ((ai.getNode selfId).rel_dir ++ [key]) ∈ res.2 ∧
      ∃ ai1 ci1,
        uwccFold selfId (a, []) ((a.getNode otherId).children.take (i + 1)) =
          some (ai1, ci1) ∧
        ((ai.getNode selfId).rel_dir ++ [key]) ∈ ci1 ∧
        (ai1.getNode exist_id).srcRef = (ai.getNode exist_id).srcRef ∧
        (ai1.getNode oid).srcRef = (ai.getNode exist_id).srcRef ∧
        (∀ x, x ∈ ai.getSrcSet (ai.getNode exist_id).srcRef ∨
              x ∈ ai.getSrcSet (ai.getNode oid).srcRef →
          x ∈ ai1.getSrcSet (ai.getNode exist_id).srcRef) ∧
        (∀ x, x ∈ ai1.getSrcSet (ai.getNode exist_id).srcRef →
          x ∈ ai.getSrcSet (ai.getNode exist_id).srcRef ∨
          x ∈ ai.getSrcSet (ai.getNode oid).srcRef ∨ x = selfId)) := by
  unfold Arena.update_with_conflict_check at h
  have hgetElem : (a.getNode otherId).children[i]? = some (key, oid) := by
    rw [List.getElem?_eq_getElem hi, ← List.getD_eq_getElem _ ("", 0) hi, hkv]
  have htake : (a.getNode otherId).children.take (i + 1) =
      (a.getNode otherId).children.take i ++ [(key, oid)] := by
    rw [List.take_succ, hgetElem]
    rfl
  have hdecomp : (uwccFold selfId (a, [])
      ((a.getNode otherId).children.take (i + 1))).bind
        (fun mid => uwccFold selfId mid ((a.getNode otherId).children.drop (i + 1))) =
      some res := by
    rw [← uwccFold_append, List.take_append_drop]
    exact h
  have hx : uwccFold selfId (a, []) ((a.getNode otherId).children.take (i + 1)) =
      uwccFold selfId (ai, ci) [(key, oid)] := by
    rw [htake, uwccFold_append, hpart, Option.some_bind]
  have hsing : ∀ st : Arena × List FsPath, uwccFold selfId st [(key, oid)] =
      uwccStep selfId st (key, oid) := by
    intro st
    simp only [uwccFold]
    cases hstep : uwccStep selfId st (key, oid) <;> simp [uwccFold]
  rw [hx, hsing] at hdecomp
  cases hstep : uwccStep selfId (ai, ci) (key, oid) with
  | none =>
    rw [hstep] at hdecomp
    exact absurd hdecomp (by simp)
  | some st2 =>
    rw [hstep] at hdecomp
    rw [Option.some_bind] at hdecomp
    have hfold1 : uwccFold selfId (a, []) ((a.getNode otherId).children.take (i + 1)) =
        some st2 := by rw [hx, hsing, hstep]
    simp only [uwccStep, hex] at hstep
    rw [if_pos hne] at hstep
    constructor
    · -- identical shared set object: nothing recorded
      intro hrefs
      rw [if_neg (fun hc => hc hrefs)] at hstep
      split at hstep
      · rename_i heqnone
        exact absurd heqnone (by simp)
      · rename_i st1 heq1
        have hst1 : st1 = (ai, ci) := by
          injection heq1 with h'
          exact h'.symm
        subst hst1
        split at hstep
        · rename_i a2 heq2
          simp only [Option.some.injEq] at hstep
          exact ⟨a2, by rw [hfold1, ← hstep]⟩
        · exact absurd hstep (by simp)
    · -- distinct objects with different contents, key not allow-listed
      intro hrefs hneq hkey
      rw [if_pos hrefs, if_pos ⟨hneq, hkey⟩] at hstep
      split at hstep
      · rename_i heqnone
        exact absurd hstep (by simp)
      · rename_i st1 heq1
        split at heq1
        · rename_i hassert
          simp only [Option.some.injEq] at heq1
          subst heq1
          split at hstep
          · rename_i a2 heq2
            dsimp only at hstep heq2
            simp only [Option.some.injEq] at hstep
            subst hstep
            have ha2 := set_child_eq_some _ _ _ _ _ _ heq2
            have hPmem : ((ai.getNode selfId).rel_dir ++ [key]) ∈
                (if ((ai.getNode selfId).rel_dir ++ [key]) ∈ ci then ci
                 else ci ++ [(ai.getNode selfId).rel_dir ++ [key]]) := by
              by_cases hmem : ((ai.getNode selfId).rel_dir ++ [key]) ∈ ci
              · rw [if_pos hmem]
                exact hmem
              · rw [if_neg hmem]
                exact List.mem_append_right _ (by simp)
            refine ⟨?_, a2,
              (if ((ai.getNode selfId).rel_dir ++ [key]) ∈ ci then ci
               else ci ++ [(ai.getNode selfId).rel_dir ++ [key]]),
              hfold1, hPmem, ?_, ?_, ?_, ?_⟩
            · exact uwccFold_conflicts_mono selfId
                ((a.getNode otherId).children.drop (i + 1)) a2 _ res.1 res.2
                (by exact hdecomp) _ hPmem
            · rw [ha2, srcRef_setChildApply,
                srcRef_setNodeSrcRef_ne _ _ _ _ (Ne.symm hne), getNode_setSrcSet]
            · rw [ha2, srcRef_setChildApply,
                srcRef_setNodeSrcRef_self _ _ _ (by rw [nodes_setSrcSet]; exact hoid)]
            · intro x hx2
              rw [ha2]
              apply mem_getSrcSet_setChildApply_mono
              rw [getSrcSet_setNodeSrcRef, getSrcSet_setSrcSet_self _ _ _ hexr,
                mem_foldl_sinsert]
              rcases hx2 with h1 | h1
              · exact Or.inl h1
              · exact Or.inr h1
            · intro x hx2
              rw [ha2] at hx2
              rcases mem_getSrcSet_setChildApply_sub _ _ _ _ _ _ _ hx2 with h1 | h1
              · rw [getSrcSet_setNodeSrcRef, getSrcSet_setSrcSet_self _ _ _ hexr,
                  mem_foldl_sinsert] at h1
                rcases h1 with h1 | h1
                · exact Or.inl h1
                · exact Or.inr (Or.inl h1)
              · exact Or.inr (Or.inr h1)
          · exact absurd hstep (by simp)
        · exact absurd heq1 (by simp)

/-- Witness for C1: in the concrete conflicting demo merge (distinct set
objects [10] and [11] at key "x"), the conflict path "common/x" is reported. -/
theorem c1_conflict_union_sharing_witness :
    ((uwccDemoArena.getNode 0).rel_dir ++ ["x"]) ∈ uwccDemoRes.2 :=
  ((c1_conflict_union_sharing uwccDemoArena 0 2 uwccDemoRes (by decide) 0 "x" 3
    (by decide) (by decide) uwccDemoArena [] (by decide) 1 (by decide) (by decide)
    (by decide) (by decide)).2 (by decide) (by decide) (by decide)).1

/-! Claim C7: the depth cutoff. `truncTS fuel ts` prunes every syntax subtree
that extraction entered with `fuel` recursion-entries of budget would skip:
fuel 0 replaces the node by an ignored token, and child positions that
extraction enters at depth + 1 get fuel - 1. Scalar children of statements and
scalar/array/tagged-array assignment values are processed without entering the
recursion, so they are never pruned. -/

mutual
/-- Prune a syntax node for a remaining entry budget. -/
def truncTS : Nat → TS → TS
  | 0, _ => .punct
  | fuel + 1, .statement cs => .statement (truncStmtList fuel cs)
  | fuel + 1, .source_file cs => .source_file (truncList fuel cs)
  | fuel + 1, .mapNode cs => .mapNode (truncList fuel cs)
  | fuel + 1, .assignment k kr kc v => .assignment k kr kc (truncAssignVal fuel v)
  | fuel + 1, .typed_assignment k kr kc v => .typed_assignment k kr kc (truncAssignVal fuel v)
  | _ + 1, t => t
termination_by fuel ts => (sizeOf ts, 1)

/-- Prune an assignment value: scalar, array and tagged-array values are
consumed without recursion; a nested block is pruned with the child budget. -/
def truncAssignVal : Nat → TS → TS
  | _, .simple_value t r c => .simple_value t r c
  | _, .array cs => .array cs
  | _, .tagged_array tg cs => .tagged_array tg cs
  | fuel, v => truncTS fuel v
termination_by fuel v => (sizeOf v, 2)

/-- Prune container children (each entered at depth + 1 with the given budget). -/
def truncList : Nat → TSList → TSList
  | _, .nil => .nil
  | fuel, .cons hd tl => .cons (truncTS fuel hd) (truncList fuel tl)
termination_by fuel cs => (sizeOf cs, 0)

/-- Prune statement children: scalar children are consumed in place and kept;
other children are entered at depth + 1 with the given budget. -/
def truncStmtList : Nat → TSList → TSList
  | _, .nil => .nil
  | fuel, .cons (.simple_value t r c) tl => .cons (.simple_value t r c) (truncStmtList fuel tl)
  | fuel, .cons hd tl => .cons (truncTS fuel hd) (truncStmtList fuel tl)
termination_by fuel cs => (sizeOf cs, 0)
end

theorem extractScript_cutoff (a : Arena) (ts : TS) (root : NodeId) (maxd depth : Int)
    (h1 : maxd > 0) (h2 : depth > maxd) :
    extractScript a ts root maxd depth = some a := by
  unfold extractScript
  rw [if_pos ⟨h1, h2⟩]

theorem extractScript_punct (a : Arena) (root : NodeId) (maxd depth : Int) :
    extractScript a .punct root maxd depth = some a := by
  unfold extractScript
  split <;> rfl

mutual
/-- Depth-cutoff equivalence, main form: extraction sees nothing of syntax
subtrees entered past the limit — extracting the pruned tree gives the same
result, state included. -/
theorem extractScript_trunc (ts : TS) (a : Arena) (root : NodeId) (maxd depth : Int)
    (h : 0 < maxd) :
    extractScript a ts root maxd depth =
      extractScript a (truncTS (maxd + 1 - depth).toNat ts) root maxd depth := by
  by_cases hcut : depth > maxd
  · rw [extractScript_cutoff a ts root maxd depth h hcut,
      extractScript_cutoff a _ root maxd depth h hcut]
  · have hnocut : ¬ (maxd > 0 ∧ depth > maxd) := fun hc => hcut hc.2
    obtain ⟨n, hf⟩ : ∃ n, (maxd + 1 - depth).toNat = n + 1 :=
      ⟨(maxd - depth).toNat, by omega⟩
    have hfn : n = (maxd - depth).toNat := by omega
    rw [hf]
    cases ts with
    | punct => simp only [truncTS]
    | simple_value t r c => simp only [truncTS]
    | array cs => simp only [truncTS]
    | tagged_array tg cs => simp only [truncTS]
    | statement cs =>
      simp only [truncTS]
      unfold extractScript
      rw [if_neg hnocut, if_neg hnocut]
      rw [hfn]
      exact extractStmtChildren_trunc cs a root maxd depth h
    | source_file cs =>
      simp only [truncTS]
      unfold extractScript
      rw [if_neg hnocut, if_neg hnocut]
      rw [hfn]
      exact extractScriptList_trunc cs a root maxd depth h
    | mapNode cs =>
      simp only [truncTS]
      unfold extractScript
      rw [if_neg hnocut, if_neg hnocut]
      rw [hfn]
      exact extractScriptList_trunc cs a root maxd depth h
    | assignment k2 r2 c2 v =>
      simp only [truncTS]
      unfold extractScript
      rw [if_neg hnocut, if_neg hnocut]
      rw [hfn]
      exact extractAssign_trunc v a k2 r2 c2 root maxd depth h
    | typed_assignment k2 r2 c2 v =>
      simp only [truncTS]
      unfold extractScript
      rw [if_neg hnocut, if_neg hnocut]
      rw [hfn]
      exact extractAssign_trunc v a k2 r2 c2 root maxd depth h
termination_by (sizeOf ts, 1)

/-- Depth-cutoff equivalence for an assignment value. -/
theorem extractAssign_trunc (v : TS) (a : Arena) (k : String) (kr kc : Nat)
    (root : NodeId) (maxd depth : Int) (h : 0 < maxd) :
    extractAssign a k kr kc v root maxd depth =
      extractAssign a k kr kc (truncAssignVal (maxd - depth).toNat v)
        root maxd depth := by
  cases v with
  | simple_value t r c => simp only [truncAssignVal]
  | array cs => simp only [truncAssignVal]
  | tagged_array tg cs => simp only [truncAssignVal]
  | statement cs =>
    rcases hfuel : (maxd - depth).toNat with _ | n
    · have hdep1 : depth + 1 > maxd := by omega
      simp only [truncAssignVal, truncTS]
      unfold extractAssign
      dsimp only
      simp only [show ∀ ts' : TS, extractScript (a.new_node k (a.getNode root).rel_dir none).1
          ts' (a.new_node k (a.getNode root).rel_dir none).2 maxd (depth + 1) =
          some (a.new_node k (a.getNode root).rel_dir none).1 from
        fun ts' => extractScript_cutoff _ ts' _ maxd (depth + 1) h hdep1]
    · have harith : (maxd + 1 - (depth + 1)).toNat = n + 1 := by omega
      simp only [truncAssignVal, truncTS]
      unfold extractAssign
      dsimp only
      rw [show extractScript (a.new_node k (a.getNode root).rel_dir none).1 (TS.statement cs)
          (a.new_node k (a.getNode root).rel_dir none).2 maxd (depth + 1) =
          extractScript (a.new_node k (a.getNode root).rel_dir none).1
            (truncTS (n + 1) (TS.statement cs))
            (a.new_node k (a.getNode root).rel_dir none).2 maxd (depth + 1) from by
        rw [extractScript_trunc (TS.statement cs) _ _ maxd (depth + 1) h, harith]]
      simp only [truncTS]
  | source_file cs =>
    rcases hfuel : (maxd - depth).toNat with _ | n
    · have hdep1 : depth + 1 > maxd := by omega
      simp only [truncAssignVal, truncTS]
      unfold extractAssign
      dsimp only
      simp only [show ∀ ts' : TS, extractScript (a.new_node k (a.getNode root).rel_dir none).1
          ts' (a.new_node k (a.getNode root).rel_dir none).2 maxd (depth + 1) =
          some (a.new_node k (a.getNode root).rel_dir none).1 from
        fun ts' => extractScript_cutoff _ ts' _ maxd (depth + 1) h hdep1]
    · have harith : (maxd + 1 - (depth + 1)).toNat = n + 1 := by omega
      simp only [truncAssignVal, truncTS]
      unfold extractAssign
      dsimp only
      rw [show extractScript (a.new_node k (a.getNode root).rel_dir none).1 (TS.source_file cs)
          (a.new_node k (a.getNode root).rel_dir none).2 maxd (depth + 1) =
          extractScript (a.new_node k (a.getNode root).rel_dir none).1
            (truncTS (n + 1) (TS.source_file cs))
            (a.new_node k (a.getNode root).rel_dir none).2 maxd (depth + 1) from by
        rw [extractScript_trunc (TS.source_file cs) _ _ maxd (depth + 1) h, harith]]
      simp only [truncTS]
  | mapNode cs =>
    rcases hfuel : (maxd - depth).toNat with _ | n
    · have hdep1 : depth + 1 > maxd := by omega
      simp only [truncAssignVal, truncTS]
      unfold extractAssign
      dsimp only
      simp only [show ∀ ts' : TS, extractScript (a.new_node k (a.getNode root).rel_dir none).1
          ts' (a.new_node k (a.getNode root).rel_dir none).2 maxd (depth + 1) =
          some (a.new_node k (a.getNode root).rel_dir none).1 from
        fun ts' => extractScript_cutoff _ ts' _ maxd (depth + 1) h hdep1]
    · have harith : (maxd + 1 - (depth + 1)).toNat = n + 1 := by omega
      simp only [truncAssignVal, truncTS]
      unfold extractAssign
      dsimp only
      rw [show extractScript (a.new_node k (a.getNode root).rel_dir none).1 (TS.mapNode cs)
          (a.new_node k (a.getNode root).rel_dir none).2 maxd (depth + 1) =
          extractScript (a.new_node k (a.getNode root).rel_dir none).1
            (truncTS (n + 1) (TS.mapNode cs))
            (a.new_node k (a.getNode root).rel_dir none).2 maxd (depth + 1) from by
        rw [extractScript_trunc (TS.mapNode cs) _ _ maxd (depth + 1) h, harith]]
      simp only [truncTS]
  | assignment k2 r2 c2 v2 =>
    rcases hfuel : (maxd - depth).toNat with _ | n
    · have hdep1 : depth + 1 > maxd := by omega
      simp only [truncAssignVal, truncTS]
      unfold extractAssign
      dsimp only
      simp only [show ∀ ts' : TS, extractScript (a.new_node k (a.getNode root).rel_dir none).1
          ts' (a.new_node k (a.getNode root).rel_dir none).2 maxd (depth + 1) =
          some (a.new_node k (a.getNode root).rel_dir none).1 from
        fun ts' => extractScript_cutoff _ ts' _ maxd (depth + 1) h hdep1]
    · have harith : (maxd + 1 - (depth + 1)).toNat = n + 1 := by omega
      simp only [truncAssignVal, truncTS]
      unfold extractAssign
      dsimp only
      rw [show extractScript (a.new_node k (a.getNode root).rel_dir none).1 (TS.assignment k2 r2 c2 v2)
          (a.new_node k (a.getNode root).rel_dir none).2 maxd (depth + 1) =
          extractScript (a.new_node k (a.getNode root).rel_dir none).1
            (truncTS (n + 1) (TS.assignment k2 r2 c2 v2))
            (a.new_node k (a.getNode root).rel_dir none).2 maxd (depth + 1) from by
        rw [extractScript_trunc (TS.assignment k2 r2 c2 v2) _ _ maxd (depth + 1) h, harith]]
      simp only [truncTS]
  | typed_assignment k2 r2 c2 v2 =>
    rcases hfuel : (maxd - depth).toNat with _ | n
    · have hdep1 : depth + 1 > maxd := by omega
      simp only [truncAssignVal, truncTS]
      unfold extractAssign
      dsimp only
      simp only [show ∀ ts' : TS, extractScript (a.new_node k (a.getNode root).rel_dir none).1
          ts' (a.new_node k (a.getNode root).rel_dir none).2 maxd (depth + 1) =
          some (a.new_node k (a.getNode root).rel_dir none).1 from
        fun ts' => extractScript_cutoff _ ts' _ maxd (depth + 1) h hdep1]
    · have harith : (maxd + 1 - (depth + 1)).toNat = n + 1 := by omega
      simp only [truncAssignVal, truncTS]
      unfold extractAssign
      dsimp only
      rw [show extractScript (a.new_node k (a.getNode root).rel_dir none).1 (TS.typed_assignment k2 r2 c2 v2)
          (a.new_node k (a.getNode root).rel_dir none).2 maxd (depth + 1) =
          extractScript (a.new_node k (a.getNode root).rel_dir none).1
            (truncTS (n + 1) (TS.typed_assignment k2 r2 c2 v2))
            (a.new_node k (a.getNode root).rel_dir none).2 maxd (depth + 1) from by
        rw [extractScript_trunc (TS.typed_assignment k2 r2 c2 v2) _ _ maxd (depth + 1) h, harith]]
      simp only [truncTS]
  | punct =>
    rcases hfuel : (maxd - depth).toNat with _ | n <;>
      simp only [truncAssignVal, truncTS]
termination_by (sizeOf v, 2)

/-- Depth-cutoff equivalence for container children. -/
theorem extractScriptList_trunc (cs : TSList) (a : Arena) (root : NodeId)
    (maxd depth : Int) (h : 0 < maxd) :
    extractScriptList a cs root maxd depth =
      extractScriptList a (truncList (maxd - depth).toNat cs) root maxd depth := by
  cases cs with
  | nil => simp only [truncList]
  | cons hd tl =>
    have harith : (maxd + 1 - (depth + 1)).toNat = (maxd - depth).toNat := by omega
    simp only [extractScriptList, truncList]
    rw [show extractScript a (truncTS (maxd - depth).toNat hd) root maxd (depth + 1) =
        extractScript a hd root maxd (depth + 1) from by
      rw [extractScript_trunc hd a root maxd (depth + 1) h, harith]]
    split
    · rename_i a1 hE
      exact extractScriptList_trunc tl a1 root maxd depth h
    · rfl
termination_by (sizeOf cs, 0)

/-- Depth-cutoff equivalence for statement children (scalar children are
processed in place and never pruned). -/
theorem extractStmtChildren_trunc (cs : TSList) (a : Arena) (root : NodeId)
    (maxd depth : Int) (h : 0 < maxd) :
    extractStmtChildren a cs root maxd depth =
      extractStmtChildren a (truncStmtList (maxd - depth).toNat cs) root maxd depth := by
  cases cs with
  | nil => simp only [truncStmtList]
  | cons hd tl =>
    cases hd with
    | simple_value t r c =>
      simp only [extractStmtChildren, truncStmtList]
      split
      · rename_i a2 hE
        exact extractStmtChildren_trunc tl a2 root maxd depth h
      · rfl
    | statement cs2 =>
      rcases hfuel : (maxd - depth).toNat with _ | n
      · have hdep1 : depth + 1 > maxd := by omega
        simp only [truncStmtList, truncTS, extractStmtChildren]
        simp only [show ∀ ts' : TS, extractScript a ts' root maxd (depth + 1) = some a from
          fun ts' => extractScript_cutoff a ts' root maxd (depth + 1) h hdep1]
        have htl := extractStmtChildren_trunc tl a root maxd depth h
        rw [hfuel] at htl
        exact htl
      · have harith : (maxd + 1 - (depth + 1)).toNat = n + 1 := by omega
        simp only [truncStmtList, truncTS, extractStmtChildren]
        rw [show extractScript a (TS.statement cs2) root maxd (depth + 1) =
            extractScript a (truncTS (n + 1) (TS.statement cs2)) root maxd (depth + 1) from by
          rw [extractScript_trunc (TS.statement cs2) a root maxd (depth + 1) h, harith]]
        simp only [truncTS]
        split
        · rename_i a1 hE
          have htl := extractStmtChildren_trunc tl a1 root maxd depth h
          rw [hfuel] at htl
          exact htl
        · rfl
    | source_file cs2 =>
      rcases hfuel : (maxd - depth).toNat with _ | n
      · have hdep1 : depth + 1 > maxd := by omega
        simp only [truncStmtList, truncTS, extractStmtChildren]
        simp only [show ∀ ts' : TS, extractScript a ts' root maxd (depth + 1) = some a from
          fun ts' => extractScript_cutoff a ts' root maxd (depth + 1) h hdep1]
        have htl := extractStmtChildren_trunc tl a root maxd depth h
        rw [hfuel] at htl
        exact htl
      · have harith : (maxd + 1 - (depth + 1)).toNat = n + 1 := by omega
        simp only [truncStmtList, truncTS, extractStmtChildren]
        rw [show extractScript a (TS.source_file cs2) root maxd (depth + 1) =
            extractScript a (truncTS (n + 1) (TS.source_file cs2)) root maxd (depth + 1) from by
          rw [extractScript_trunc (TS.source_file cs2) a root maxd (depth + 1) h, harith]]
        simp only [truncTS]
        split
        · rename_i a1 hE
          have htl := extractStmtChildren_trunc tl a1 root maxd depth h
          rw [hfuel] at htl
          exact htl
        · rfl
    | mapNode cs2 =>
      rcases hfuel : (maxd - depth).toNat with _ | n
      · have hdep1 : depth + 1 > maxd := by omega
        simp only [truncStmtList, truncTS, extractStmtChildren]
        simp only [show ∀ ts' : TS, extractScript a ts' root maxd (depth + 1) = some a from
          fun ts' => extractScript_cutoff a ts' root maxd (depth + 1) h hdep1]
        have htl := extractStmtChildren_trunc tl a root maxd depth h
        rw [hfuel] at htl
        exact htl
      · have harith : (maxd + 1 - (depth + 1)).toNat = n + 1 := by omega
        simp only [truncStmtList, truncTS, extractStmtChildren]
        rw [show extractScript a (TS.mapNode cs2) root maxd (depth + 1) =
            extractScript a (truncTS (n + 1) (TS.mapNode cs2)) root maxd (depth + 1) from by
          rw [extractScript_trunc (TS.mapNode cs2) a root maxd (depth + 1) h, harith]]
        simp only [truncTS]
        split
        · rename_i a1 hE
          have htl := extractStmtChildren_trunc tl a1 root maxd depth h
          rw [hfuel] at htl
          exact htl
        · rfl
    | assignment k2 r2 c2 v2 =>
      rcases hfuel : (maxd - depth).toNat with _ | n
      · have hdep1 : depth + 1 > maxd := by omega
        simp only [truncStmtList, truncTS, extractStmtChildren]
        simp only [show ∀ ts' : TS, extractScript a ts' root maxd (depth + 1) = some a from
          fun ts' => extractScript_cutoff a ts' root maxd (depth + 1) h hdep1]
        have htl := extractStmtChildren_trunc tl a root maxd depth h
        rw [hfuel] at htl
        exact htl
      · have harith : (maxd + 1 - (depth + 1)).toNat = n + 1 := by omega
        simp only [truncStmtList, truncTS, extractStmtChildren]
        rw [show extractScript a (TS.assignment k2 r2 c2 v2) root maxd (depth + 1) =
            extractScript a (truncTS (n + 1) (TS.assignment k2 r2 c2 v2)) root maxd (depth + 1) from by
          rw [extractScript_trunc (TS.assignment k2 r2 c2 v2) a root maxd (depth + 1) h, harith]]
        simp only [truncTS]
        split
        · rename_i a1 hE
          have htl := extractStmtChildren_trunc tl a1 root maxd depth h
          rw [hfuel] at htl
          exact htl
        · rfl
    | typed_assignment k2 r2 c2 v2 =>
      rcases hfuel : (maxd - depth).toNat with _ | n
      · have hdep1 : depth + 1 > maxd := by omega
        simp only [truncStmtList, truncTS, extractStmtChildren]
        simp only [show ∀ ts' : TS, extractScript a ts' root maxd (depth + 1) = some a from
          fun ts' => extractScript_cutoff a ts' root maxd (depth + 1) h hdep1]
        have htl := extractStmtChildren_trunc tl a root maxd depth h
        rw [hfuel] at htl
        exact htl
      · have harith : (maxd + 1 - (depth + 1)).toNat = n + 1 := by omega
        simp only [truncStmtList, truncTS, extractStmtChildren]
        rw [show extractScript a (TS.typed_assignment k2 r2 c2 v2) root maxd (depth + 1) =
            extractScript a (truncTS (n + 1) (TS.typed_assignment k2 r2 c2 v2)) root maxd (depth + 1) from by
          rw [extractScript_trunc (TS.typed_assignment k2 r2 c2 v2) a root maxd (depth + 1) h, harith]]
        simp only [truncTS]
        split
        · rename_i a1 hE
          have htl := extractStmtChildren_trunc tl a1 root maxd depth h
          rw [hfuel] at htl
          exact htl
        · rfl
    | array cs2 =>
      rcases hfuel : (maxd - depth).toNat with _ | n
      · have hdep1 : depth + 1 > maxd := by omega
        simp only [truncStmtList, truncTS, extractStmtChildren]
        simp only [show ∀ ts' : TS, extractScript a ts' root maxd (depth + 1) = some a from
          fun ts' => extractScript_cutoff a ts' root maxd (depth + 1) h hdep1]
        have htl := extractStmtChildren_trunc tl a root maxd depth h
        rw [hfuel] at htl
        exact htl
      · have harith : (maxd + 1 - (depth + 1)).toNat = n + 1 := by omega
        simp only [truncStmtList, truncTS, extractStmtChildren]
        rw [show extractScript a (TS.array cs2) root maxd (depth + 1) =
            extractScript a (truncTS (n + 1) (TS.array cs2)) root maxd (depth + 1) from by
          rw [extractScript_trunc (TS.array cs2) a root maxd (depth + 1) h, harith]]
        simp only [truncTS]
        split
        · rename_i a1 hE
          have htl := extractStmtChildren_trunc tl a1 root maxd depth h
          rw [hfuel] at htl
          exact htl
        · rfl
    | tagged_array tg2 cs2 =>
      rcases hfuel : (maxd - depth).toNat with _ | n
      · have hdep1 : depth + 1 > maxd := by omega
        simp only [truncStmtList, truncTS, extractStmtChildren]
        simp only [show ∀ ts' : TS, extractScript a ts' root maxd (depth + 1) = some a from
          fun ts' => extractScript_cutoff a ts' root maxd (depth + 1) h hdep1]
        have htl := extractStmtChildren_trunc tl a root maxd depth h
        rw [hfuel] at htl
        exact htl
      · have harith : (maxd + 1 - (depth + 1)).toNat = n + 1 := by omega
        simp only [truncStmtList, truncTS, extractStmtChildren]
        rw [show extractScript a (TS.tagged_array tg2 cs2) root maxd (depth + 1) =
            extractScript a (truncTS (n + 1) (TS.tagged_array tg2 cs2)) root maxd (depth + 1) from by
          rw [extractScript_trunc (TS.tagged_array tg2 cs2) a root maxd (depth + 1) h, harith]]
        simp only [truncTS]
        split
        · rename_i a1 hE
          have htl := extractStmtChildren_trunc tl a1 root maxd depth h
          rw [hfuel] at htl
          exact htl
        · rfl
    | punct =>
      rcases hfuel : (maxd - depth).toNat with _ | n
      · have hdep1 : depth + 1 > maxd := by omega
        simp only [truncStmtList, truncTS, extractStmtChildren]
        simp only [show ∀ ts' : TS, extractScript a ts' root maxd (depth + 1) = some a from
          fun ts' => extractScript_cutoff a ts' root maxd (depth + 1) h hdep1]
        have htl := extractStmtChildren_trunc tl a root maxd depth h
        rw [hfuel] at htl
        exact htl
      · have harith : (maxd + 1 - (depth + 1)).toNat = n + 1 := by omega
        simp only [truncStmtList, truncTS, extractStmtChildren]
        rw [show extractScript a (TS.punct) root maxd (depth + 1) =
            extractScript a (truncTS (n + 1) (TS.punct)) root maxd (depth + 1) from by
          rw [extractScript_trunc (TS.punct) a root maxd (depth + 1) h, harith]]
        simp only [truncTS]
        split
        · rename_i a1 hE
          have htl := extractStmtChildren_trunc tl a1 root maxd depth h
          rw [hfuel] at htl
          exact htl
        · rfl
termination_by (sizeOf cs, 0)
end

/-- C7: with a positive depth limit, (1) a subtree whose extraction entry point
lies beyond the limit is silently omitted — the call returns the arena
unchanged, as a normal `some` result (no partial node, no error); and (2) more
generally, extraction cannot see past the limit: extracting the tree with every
beyond-limit subtree pruned away gives exactly the same result, so no node is
ever produced from syntax nested beyond `max_depth`. -/
theorem c7_depth_cutoff (a : Arena) (ts : TS) (root : NodeId) (maxd depth : Int)
    (h : 0 < maxd) :
    (depth > maxd → extractScript a ts root maxd depth = some a) ∧
    extractScript a ts root maxd depth =
      extractScript a (truncTS (maxd + 1 - depth).toNat ts) root maxd depth :=
  ⟨fun h2 => extractScript_cutoff a ts root maxd depth h h2,
   extractScript_trunc ts a root maxd depth h⟩

/-- Witness for C7: entering an assignment subtree at depth 2 with limit 1
returns the arena unchanged. -/
theorem c7_depth_cutoff_witness :
    extractScript Arena.new (TS.assignment "k" 0 0 (TS.mapNode TSList.nil)) 0 1 2 =
      some Arena.new :=
  (c7_depth_cutoff Arena.new (TS.assignment "k" 0 0 (TS.mapNode TSList.nil)) 0 1 2
    (by decide)).1 (by decide)

/-! Claim C8: disabled mods in the fold phase. -/

theorem updateChildren_children_ne (selfId : NodeId) :
    ∀ (l : List (String × NodeId)) (a a' : Arena),
      a.updateChildren selfId l = some a' →
      ∀ q, q ≠ selfId → (a'.getNode q).children = (a.getNode q).children := by
  intro l
  induction l with
  | nil =>
    intro a a' h q hq
    simp only [Arena.updateChildren, Option.some.injEq] at h
    rw [h]
  | cons kv tl ih =>
    intro a a' h q hq
    simp only [Arena.updateChildren] at h
    split at h
    · rename_i a1 h1
      rw [ih a1 a' h q hq, set_child_eq_some _ _ _ _ _ _ h1,
        children_setChildApply_ne _ _ _ _ _ _ hq]
    · exact absurd h (by simp)

theorem updateChildren_src_mono (selfId : NodeId) :
    ∀ (l : List (String × NodeId)) (a a' : Arena),
      a.updateChildren selfId l = some a' →
      ∀ q x, x ∈ a.srcOf q → x ∈ a'.srcOf q := by
  intro l
  induction l with
  | nil =>
    intro a a' h q x hx
    simp only [Arena.updateChildren, Option.some.injEq] at h
    rw [← h]
    exact hx
  | cons kv tl ih =>
    intro a a' h q x hx
    simp only [Arena.updateChildren] at h
    split at h
    · rename_i a1 h1
      refine ih a1 a' h q x ?_
      rw [set_child_eq_some _ _ _ _ _ _ h1]
      unfold Arena.srcOf
      rw [srcRef_setChildApply]
      exact mem_getSrcSet_setChildApply_mono _ _ _ _ _ _ _ hx
    · exact absurd h (by simp)

theorem mod_data_setSrcSet (a : Arena) (r : Nat) (x : List NodeId) :
    (a.setSrcSet r x).mod_data = a.mod_data := rfl

theorem mod_data_set_source (a : Arena) (i src : NodeId) :
    (a.set_source i src).mod_data = a.mod_data := rfl

theorem mod_data_setChildApply (a : Arena) (p : NodeId) (k : String) (v : NodeId)
    (b : Bool) : (a.setChildApply p k v b).mod_data = a.mod_data := by
  unfold Arena.setChildApply Arena.setParentCond Arena.setSourceCond
  split <;> split <;> rfl

theorem mod_data_set_child (a : Arena) (p : NodeId) (k : String) (v : NodeId)
    (b : Bool) (a' : Arena) (h : a.set_child p k v b = some a') :
    a'.mod_data = a.mod_data := by
  rw [set_child_eq_some _ _ _ _ _ _ h, mod_data_setChildApply]

theorem mod_data_new_node (a : Arena) (n : String) (d : FsPath) (v : Option String) :
    (a.new_node n d v).1.mod_data = a.mod_data := rfl

theorem mod_data_setdefault_by_dir :
    ∀ (parts : List String) (a : Arena) (curr : NodeId) (dn : String)
      (a' : Arena) (n' : NodeId),
      a.setdefault_by_dir curr parts dn = some (a', n') → a'.mod_data = a.mod_data := by
  intro parts
  induction parts with
  | nil =>
    intro a curr dn a' n' h
    simp only [Arena.setdefault_by_dir, Option.some.injEq, Prod.mk.injEq] at h
    rw [h.1]
  | cons key rest ih =>
    intro a curr dn a' n' h
    simp only [Arena.setdefault_by_dir] at h
    split at h
    · rename_i cid hl
      rw [ih a cid dn a' n' h]
    · split at h
      · rename_i a2 hsc
        rw [ih a2 _ dn a' n' h, mod_data_set_child _ _ _ _ _ _ hsc, mod_data_new_node]
      · exact absurd h (by simp)

theorem mod_data_extend (a other : Arena) : (a.extend other).mod_data = a.mod_data := by
  unfold Arena.extend
  generalize a.nodes.length = base
  induction other.nodes generalizing a with
  | nil => rfl
  | cons hd tl ih =>
    rw [List.foldl_cons]
    rw [ih (extendStep base other.srcStore a hd)]
    rfl

/-- C8 (amended form, script side): one txt fold iteration for a mod whose
enabled flag is false, in the situation where the `<def>` aggregate resolves to
`def_id` and the file's literal path already resolves to a different node `e`.
The run-wide conflict set is unchanged, the aggregate's children receive
nothing, and the mod is still linked at the literal path: it is recorded in
the existing node's provenance set. -/
theorem c8_txt_disabled_excluded_from_def (st : ExtractorSt) (mod_id : NodeId)
    (fa : Arena) (md : ModData) (st' : ExtractorSt)
    (hmd : iomGet st.arena.mod_data mod_id = some md)
    (hdis : md.enabled = false)
    (hrun : foldTxtStep st mod_id fa = some st')
    (parent_rel : FsPath)
    (hpar : pathParent (((st.arena.extend fa).set_source st.arena.nodes.length
      mod_id).getNode st.arena.nodes.length).rel_dir = some parent_rel)
    (a3 : Arena) (sdnode : NodeId)
    (hsd : ((st.arena.extend fa).set_source st.arena.nodes.length
      mod_id).setdefault_by_dir 0 (parent_rel ++ ["<def>"]) "<def>" =
      some (a3, sdnode))
    (def_id : NodeId)
    (hdef : a3.get_by_dir 0 (parent_rel ++ ["<def>"]) = some def_id)
    (e : NodeId)
    (hlink : a3.get_by_dir 0 (((st.arena.extend fa).set_source st.arena.nodes.length
      mod_id).getNode st.arena.nodes.length).rel_dir = some e)
    (hnede : e ≠ def_id)
    (her : (a3.getNode e).srcRef < a3.srcStore.length) :
    st'.conflicts = st.conflicts ∧
    (st'.arena.getNode def_id).children = (a3.getNode def_id).children ∧
    mod_id ∈ st'.arena.srcOf e := by
  have hmd' : iomGet a3.mod_data mod_id = some md := by
    have h1 : a3.mod_data = st.arena.mod_data := by
      rw [mod_data_setdefault_by_dir _ _ _ _ _ _ hsd, mod_data_set_source,
        mod_data_extend]
    rw [h1]
    exact hmd
  simp only [foldTxtStep, foldTxtA] at hrun
  rw [hpar] at hrun
  dsimp only at hrun
  rw [hsd] at hrun
  dsimp only at hrun
  rw [hdef] at hrun
  dsimp only at hrun
  rw [hmd'] at hrun
  dsimp only at hrun
  rw [if_pos hdis] at hrun
  dsimp only at hrun
  simp only [linkFileNode] at hrun
  rw [hlink] at hrun
  dsimp only at hrun
  split at hrun
  · rename_i a6 hupd
    simp only [Option.some.injEq] at hrun
    subst hrun
    refine ⟨rfl, ?_, ?_⟩
    · dsimp only
      rw [updateChildren_children_ne e _ _ _ hupd def_id (fun hc => hnede hc.symm)]
      simp [Arena.getNode, nodes_set_source]
    · dsimp only
      apply updateChildren_src_mono e _ _ _ hupd e mod_id
      unfold Arena.srcOf
      rw [show ((a3.set_source e mod_id).getNode e).srcRef = (a3.getNode e).srcRef from
        by rw [getNode_set_source]]
      unfold Arena.set_source
      rw [getSrcSet_setSrcSet_self _ _ _ her, Arena.srcOf, mem_sinsert]
      exact Or.inr rfl
  · exact absurd hrun (by simp)

/-- Extractor state with a Virtual root and one registered, disabled mod. -/
def c8stArena : Arena :=
  (Arena.new.new_node "<root>" [".\\"] none).1.new_mod "B" false 0 ["mods", "B"]

/-- The extractor state for the C8 counterexample (default toggles). -/
def c8st : ExtractorSt :=
  { arena := c8stArena, conflicts := [], check_loc_conflicts := false,
    check_script_conflicts := true }

/-- Per-file localization arena of the disabled mod: a yml file node holding
one value child "KEY". -/
def c8fa : Arena :=
  let a1 := (Arena.new.new_node "f_l_english.yml"
    ["localization", "english", "f_l_english.yml"] none).1
  let a2 := (a1.new_node "KEY" ["localization", "english", "f_l_english.yml"]
    (some "Hello")).1
  (a2.set_child 0 "KEY" 1 true).getD Arena.new

/-- C8 counterexample: the yml fold loop has no enabled-flag check, so a
disabled mod's localization content is merged into the `<loc>` aggregate —
after folding the disabled mod's file, the `<loc>` container holds the mod's
"KEY" entry, contradicting the claim that each aggregate reflects only
enabled mods' content. -/
theorem c8_counterexample :
    (iomGet c8st.arena.mod_data 1).map (fun md => md.enabled) = some false ∧
    (foldYmlStep c8st 1 c8fa).map (fun st' =>
      (st'.arena.get_by_dir 0 ["localization", "english", "<loc>"]).map
        (fun loc => (st'.arena.getNode loc).children)) = some (some [("KEY", 3)]) :=
  ⟨by decide, by decide⟩

/-- Registry entry of the disabled mod used by the C8 witness. -/
def c8wMd : ModData :=
  { load_order := 0, enabled := false, name := "B", node_id := 1,
    path := ["mods", "B"] }

/-- Shared arena for the C8 witness: a root, a disabled mod "B", a "common"
directory holding an existing file node "a.txt" and an existing `<def>`
aggregate. -/
def c8wArena : Arena :=
  { nodes := [
      { id := 0, parent := none, children := [("common", 2)], node_type := .Virtual,
        value := none, srcRef := 0, name := "<root>", rel_dir := [".\\"],
        start_point := none },
      { id := 1, parent := none, children := [], node_type := .Mod, value := none,
        srcRef := 1, name := "B", rel_dir := [], start_point := none },
      { id := 2, parent := none, children := [("a.txt", 3), ("<def>", 4)],
        node_type := .Directory, value := none, srcRef := 2, name := "common",
        rel_dir := ["common"], start_point := none },
      { id := 3, parent := some 2, children := [], node_type := .File, value := none,
        srcRef := 3, name := "a.txt", rel_dir := ["common", "a.txt"],
        start_point := none },
      { id := 4, parent := none, children := [], node_type := .Virtual, value := none,
        srcRef := 4, name := "<def>", rel_dir := ["common"], start_point := none }],
    library := [],
    srcStore := [[], [], [], [], []],
    mod_data := [(1, c8wMd)] }

/-- Per-file script arena of the disabled mod for the C8 witness. -/
def c8wFa : Arena :=
  { nodes := [
      { id := 0, parent := none, children := [("KEY", 1)], node_type := .File,
        value := none, srcRef := 0, name := "a.txt", rel_dir := ["common", "a.txt"],
        start_point := none },
      { id := 1, parent := some 0, children := [], node_type := .Value,
        value := some "x", srcRef := 1, name := "KEY",
        rel_dir := ["common", "a.txt"], start_point := none }],
    library := [],
    srcStore := [[], [0]],
    mod_data := [] }

/-- Extractor state for the C8 witness. -/
def c8wSt : ExtractorSt :=
  { arena := c8wArena, conflicts := [], check_loc_conflicts := false,
    check_script_conflicts := true }

/-- Intermediate arena after the extend/set_source prologue of the witness fold. -/
def c8wA3 : Arena := (c8wArena.extend c8wFa).set_source 5 1

/-- Result state of the witness fold step. -/
def c8wResSt : ExtractorSt := (foldTxtStep c8wSt 1 c8wFa).getD c8wSt

/-- Witness for the amended C8: folding the disabled mod's txt file leaves the
conflicts and the `<def>` aggregate untouched while recording the mod at the
already-linked literal path node. -/
theorem c8_txt_disabled_excluded_from_def_witness :
    c8wResSt.conflicts = c8wSt.conflicts ∧
    (c8wResSt.arena.getNode 4).children = (c8wA3.getNode 4).children ∧
    1 ∈ c8wResSt.arena.srcOf 3 :=
  c8_txt_disabled_excluded_from_def c8wSt 1 c8wFa c8wMd
    c8wResSt (by decide) (by decide) (by decide) ["common"] (by decide) c8wA3 4
    (by decide) 4 (by decide) 3 (by decide) (by decide) (by decide)

end CK3Spec
